import Mathlib

/-!
Verification of the crcrypt-web cryptographic core (src/crypto.js and
src/utils/hex.js) against its natural-language specification.

The JavaScript source is shallowly embedded below:
  * byte buffers (`Uint8Array`) become `List Nat` whose elements are < 256
    at every construction site;
  * functions that `throw` become `Except String` with the exact messages
    of the source;
  * the external Web Crypto provider (`globalThis.crypto.subtle` and
    `getRandomValues`) is modelled as a structure of abstract functions,
    with the padding discipline the Web Crypto specification fixes for
    AES-CBC (PKCS#7 applied on encrypt, checked and removed on decrypt)
    and the ciphertext-plus-16-byte-tag convention it fixes for AES-GCM
    made explicit in wrapper functions;
  * the in-place `wipeBytes` zeroisation calls become an explicit log of
    (name, final contents) pairs threaded through each operation, so that
    memory-hygiene claims are statements about the log at each exit path.

Only integer-valued option fields are modelled (`Option Nat` / `Option Int`
with the source's JavaScript `||` falsy-default and `Number.isInteger`
behaviour); fractional JavaScript numbers are outside the modelled domain.
-/

set_option maxRecDepth 8000

namespace Crcrypt

/-- Byte buffers: `Uint8Array` contents, each element < 256 at every
construction site of the program. -/
abbrev Bytes := List Nat

/-! ## JavaScript string trimming

Models `String.prototype.trim`, which removes WhiteSpace and LineTerminator
code points from both ends. -/

/-- Code points `String.prototype.trim` removes (the ones relevant here). -/
def isJsSpace (c : Char) : Bool :=
  c = ' ' || c = '\t' || c = '\n' || c = '\r' || c = '\x0b' || c = '\x0c' ||
  c = '\u00A0' || c = '\u2028' || c = '\u2029' || c = '\uFEFF'

/-- Model of JavaScript `s.trim()`. -/
def jsTrim (s : String) : String :=
  String.mk (((s.data.dropWhile isJsSpace).reverse.dropWhile isJsSpace).reverse)

/-! ## JavaScript `String.prototype.split(":")` -/

/-- `split(":")` on the character list: n colons give n+1 (possibly empty)
fields, as in JavaScript. -/
def splitColonChars : List Char → List (List Char)
  | [] => [[]]
  | c :: rest =>
    if c = ':' then [] :: splitColonChars rest
    else
      match splitColonChars rest with
      | [] => [[c]]
      | h :: t => (c :: h) :: t

/-- Model of JavaScript `s.split(":")`. -/
def splitColon (s : String) : List String :=
  (splitColonChars s.data).map String.mk

/-! ## src/utils/hex.js -/

/-- One lowercase hex digit, as `i.toString(16)` produces for `i < 16`. -/
def hexDigitChar (n : Nat) : Char :=
  if n < 10 then Char.ofNat (48 + n) else Char.ofNat (87 + n)

/-- The two characters `lut[b]` of `toHex` holds for a byte `b < 256`:
`(b < 16 ? "0" : "") + b.toString(16)`. -/
def byteToHexChars (b : Nat) : List Char :=
  [hexDigitChar (b / 16), hexDigitChar (b % 16)]

/-- `toHex` of src/utils/hex.js: lowercase hex string of a byte buffer. -/
def toHex (bytes : Bytes) : String :=
  String.mk (bytes.map byteToHexChars).flatten

/-- A character the regex `[0-9a-fA-F]` of `fromHex` accepts. -/
def isHexChar (c : Char) : Bool :=
  (48 ≤ c.toNat && c.toNat ≤ 57) || (97 ≤ c.toNat && c.toNat ≤ 102) ||
  (65 ≤ c.toNat && c.toNat ≤ 70)

/-- Value of a hex character (only meaningful when `isHexChar`). -/
def hexCharVal (c : Char) : Nat :=
  if 48 ≤ c.toNat && c.toNat ≤ 57 then c.toNat - 48
  else if 97 ≤ c.toNat then c.toNat - 87
  else c.toNat - 55

/-- The byte-parsing loop of `fromHex`: `parseInt(slice(i, i+2), 16)`. -/
def hexPairsToBytes : List Char → Bytes
  | c1 :: c2 :: rest => (hexCharVal c1 * 16 + hexCharVal c2) :: hexPairsToBytes rest
  | _ => []

/-- `fromHex` of src/utils/hex.js: trims, accepts the empty string as an
empty buffer, rejects odd length and non-hex characters with the source's
messages. -/
def fromHex (hex : String) : Except String Bytes :=
  let trimmed := jsTrim hex
  if trimmed.data.length = 0 then .ok []
  else if trimmed.data.length % 2 = 1 then .error "Invalid hex: length must be even"
  else if !(trimmed.data.all isHexChar) then .error "Invalid hex: contains non-hex characters"
  else .ok (hexPairsToBytes trimmed.data)

/-! ## UTF-8 (TextEncoder / TextDecoder)

`utf8Encode` is the standard UTF-8 encoding of a string; `utf8Decode`
models `new TextDecoder("utf-8")` in its default non-fatal mode, which
never throws: malformed input produces U+FFFD replacement characters with
the WHATWG resynchronisation rule (invalid bytes are reconsumed). -/

/-- UTF-8 bytes of one Unicode scalar value. -/
def utf8EncodeChar (c : Char) : Bytes :=
  let n := c.toNat
  if n < 128 then [n]
  else if n < 2048 then [192 + n / 64, 128 + n % 64]
  else if n < 65536 then [224 + n / 4096, 128 + (n / 64) % 64, 128 + n % 64]
  else [240 + n / 262144, 128 + (n / 4096) % 64, 128 + (n / 64) % 64, 128 + n % 64]

/-- Model of `TextEncoder.encode`. -/
def utf8Encode (s : String) : Bytes :=
  (s.data.map utf8EncodeChar).flatten

/-- A UTF-8 continuation byte. -/
def isCont (b : Nat) : Bool := 128 ≤ b && b < 192

/-- Lower bound of the second byte after lead `b` (WHATWG UTF-8 decoder). -/
def utf8SecondLo (b : Nat) : Nat :=
  if b = 224 then 160 else if b = 240 then 144 else 128

/-- Upper bound of the second byte after lead `b` (WHATWG UTF-8 decoder). -/
def utf8SecondHi (b : Nat) : Nat :=
  if b = 237 then 159 else if b = 244 then 143 else 191

/-- U+FFFD, the replacement character a non-fatal `TextDecoder` emits. -/
def replChar : Char := '\uFFFD'

/-- The WHATWG UTF-8 decoder (non-fatal): scalar values of a byte stream,
replacement characters for malformed sequences. -/
def utf8DecodeChars : List Nat → List Char
  | [] => []
  | b :: rest =>
    if b < 128 then Char.ofNat b :: utf8DecodeChars rest
    else if b < 194 ∨ 244 < b then replChar :: utf8DecodeChars rest
    else
      match rest with
      | [] => [replChar]
      | b2 :: rest2 =>
        if utf8SecondLo b ≤ b2 ∧ b2 ≤ utf8SecondHi b then
          if b < 224 then
            Char.ofNat ((b - 192) * 64 + (b2 - 128)) :: utf8DecodeChars rest2
          else
            match rest2 with
            | [] => [replChar]
            | b3 :: rest3 =>
              if 128 ≤ b3 ∧ b3 < 192 then
                if b < 240 then
                  Char.ofNat ((b - 224) * 4096 + (b2 - 128) * 64 + (b3 - 128)) ::
                    utf8DecodeChars rest3
                else
                  match rest3 with
                  | [] => [replChar]
                  | b4 :: rest4 =>
                    if 128 ≤ b4 ∧ b4 < 192 then
                      Char.ofNat ((b - 240) * 262144 + (b2 - 128) * 4096 +
                          (b3 - 128) * 64 + (b4 - 128)) :: utf8DecodeChars rest4
                    else replChar :: utf8DecodeChars (b4 :: rest4)
              else replChar :: utf8DecodeChars (b3 :: rest3)
        else replChar :: utf8DecodeChars (b2 :: rest2)
  termination_by l => l.length

/-- Model of `new TextDecoder("utf-8").decode` (non-fatal). -/
def utf8Decode (bytes : Bytes) : String :=
  String.mk (utf8DecodeChars bytes)

/-! ## PKCS#7 padding (src/crypto.js `pkcs7Pad` / `pkcs7Unpad`) -/

/-- `pkcs7Pad` of src/crypto.js: appends `padLen` bytes of value `padLen`,
a whole extra block when the length is already a multiple of `blockSize`. -/
def pkcs7Pad (data : Bytes) (blockSize : Nat := 16) : Bytes :=
  let rem := data.length % blockSize
  let padLen := if rem = 0 then blockSize else blockSize - rem
  data ++ List.replicate padLen padLen

/-- `pkcs7Unpad` of src/crypto.js: validates and removes PKCS#7 padding,
failing with "Invalid padding" exactly as the source does. -/
def pkcs7Unpad (data : Bytes) (blockSize : Nat := 16) : Except String Bytes :=
  if data.length = 0 then .error "Invalid padding"
  else
    let padLen := data.getLastD 0
    if padLen = 0 ∨ padLen > blockSize ∨ padLen > data.length then
      .error "Invalid padding"
    else
      let start := data.length - padLen
      if (data.drop start).all (· = padLen) then .ok (data.take start)
      else .error "Invalid padding"

/-! ## The external Web Crypto provider

The source treats `globalThis.crypto` as a black-box primitive provider.
It is modelled as a structure of abstract functions; the AES-CBC and
AES-GCM wrappers below add the behaviour the Web Crypto specification
fixes for `subtle.encrypt` / `subtle.decrypt`:
  * AES-CBC `encrypt` applies PKCS#7 padding to its input before the block
    transform; `decrypt` applies the inverse transform, then checks and
    removes PKCS#7 padding, rejecting (an `OperationError`, modelled as
    `none`) when the padding is invalid;
  * AES-GCM `encrypt` returns ciphertext with a 16-byte (128-bit)
    authentication tag appended; `decrypt` checks the tag and rejects
    (`none`) on mismatch.
`CryptoKey` objects are modelled by their raw key material bytes; the
source binds each key to one algorithm and only ever uses it with that
algorithm, so the binding is not observable and is not modelled. -/

/-- The primitive provider: secure random bytes, PBKDF2-HMAC-SHA256
(password, salt, iterations, key length in bytes), and the raw
length-preserving AES-CBC / AES-GCM block transforms plus the GCM tag. -/
structure SubtleCrypto where
  getRandomValues : Nat → Bytes
  pbkdf2 : String → Bytes → Nat → Nat → Bytes
  cbcRawEnc : Bytes → Bytes → Bytes → Bytes
  cbcRawDec : Bytes → Bytes → Bytes → Bytes
  gcmCoreEnc : Bytes → Bytes → Bytes → Bytes
  gcmCoreDec : Bytes → Bytes → Bytes → Bytes
  gcmTag : Bytes → Bytes → Bytes → Bytes

/-- Modelled from the Web Crypto specification: AES-CBC `subtle.encrypt`
pads its input with PKCS#7 before the block transform. -/
def subtleCbcEncrypt (P : SubtleCrypto) (key iv data : Bytes) : Bytes :=
  P.cbcRawEnc key iv (pkcs7Pad data 16)

/-- Modelled from the Web Crypto specification: AES-CBC `subtle.decrypt`
applies the inverse block transform and then checks and removes PKCS#7
padding; a malformed length or invalid padding is an `OperationError`,
modelled as `none`. -/
def subtleCbcDecrypt (P : SubtleCrypto) (key iv ct : Bytes) : Option Bytes :=
  if ct.length = 0 || ct.length % 16 ≠ 0 then none
  else
    match pkcs7Unpad (P.cbcRawDec key iv ct) 16 with
    | .ok pt => some pt
    | .error _ => none

/-- Modelled from the Web Crypto specification: AES-GCM `subtle.encrypt`
with `tagLength: 128` returns the ciphertext with the 16-byte tag
appended. -/
def subtleGcmEncrypt (P : SubtleCrypto) (key iv pt : Bytes) : Bytes :=
  let ct := P.gcmCoreEnc key iv pt
  ct ++ P.gcmTag key iv ct

/-- Modelled from the Web Crypto specification: AES-GCM `subtle.decrypt`
splits off the trailing 16-byte tag, verifies it, and rejects with an
`OperationError` (modelled as `none`) on mismatch or short input. -/
def subtleGcmDecrypt (P : SubtleCrypto) (key iv joined : Bytes) : Option Bytes :=
  if joined.length < 16 then none
  else
    let ct := joined.take (joined.length - 16)
    let tag := joined.drop (joined.length - 16)
    if tag = P.gcmTag key iv ct then some (P.gcmCoreDec key iv ct) else none

/-- The facts about the provider the source relies on: random buffers have
the requested length, and every primitive produces byte values, with the
block transforms length-preserving and the tag 16 bytes. -/
structure LawfulProvider (P : SubtleCrypto) : Prop where
  rand_length : ∀ n, (P.getRandomValues n).length = n
  rand_lt : ∀ n, ∀ b ∈ P.getRandomValues n, b < 256
  pbkdf2_lt : ∀ pw s it kl, ∀ b ∈ P.pbkdf2 pw s it kl, b < 256
  cbc_length : ∀ k iv d, (P.cbcRawEnc k iv d).length = d.length
  cbc_lt : ∀ k iv d, ∀ b ∈ P.cbcRawEnc k iv d, b < 256
  gcm_length : ∀ k iv d, (P.gcmCoreEnc k iv d).length = d.length
  gcm_lt : ∀ k iv d, ∀ b ∈ P.gcmCoreEnc k iv d, b < 256
  tag_length : ∀ k iv c, (P.gcmTag k iv c).length = 16
  tag_lt : ∀ k iv c, ∀ b ∈ P.gcmTag k iv c, b < 256

/-! ## Buffer log (memory hygiene)

`wipeBytes` zero-fills a buffer in place.  The embedding records every
byte buffer an operation allocates as a `(name, contents)` entry in a log
threaded through the call; a `wipeBytes` call replaces the named entry's
contents with zeros.  Buffer names are unique along every execution path
(the per-candidate `joined` buffers of the decryption loop carry the
candidate key length in their name). -/

/-- The allocation log: one entry per byte buffer, final contents. -/
abbrev BufLog := List (String × Bytes)

/-- `wipeBytes(buffer)`: zero-fill the named buffer in the log. -/
def wipeBuf (log : BufLog) (nm : String) : BufLog :=
  log.map fun e => if e.1 = nm then (e.1, List.replicate e.2.length 0) else e

/-- A sequence of `wipeBytes` calls. -/
def wipeAll (log : BufLog) (nms : List String) : BufLog :=
  nms.foldl wipeBuf log

/-! ## src/crypto.js -/

/-- The `DEFAULTS` object of src/crypto.js (multi-algorithm variant). -/
structure DefaultsT where
  algorithm : String
  saltLength : Nat
  ivLength : Nat
  iterations : Int
  keyLength : Int

/-- `DEFAULTS`: AES-CBC, 32-byte salt, 16-byte IV, 100000 PBKDF2
iterations, 32-byte key. -/
def DEFAULTS : DefaultsT :=
  { algorithm := "AES-CBC", saltLength := 32, ivLength := 16,
    iterations := 100000, keyLength := 32 }

/-- JavaScript `opts.x || default` on a numeric option: absent or `0`
(falsy) gives the default. -/
def jsOrNat (o : Option Nat) (d : Nat) : Nat :=
  match o with
  | none => d
  | some 0 => d
  | some v => v

/-- JavaScript `opts.x || default` on an integer option. -/
def jsOrInt (o : Option Int) (d : Int) : Int :=
  match o with
  | none => d
  | some v => if v = 0 then d else v

/-- JavaScript `opts.x || default` on a string option: absent or `""`
(falsy) gives the default. -/
def jsOrStr (o : Option String) (d : String) : String :=
  match o with
  | none => d
  | some "" => d
  | some v => v

/-- Options of `encryptText`. -/
structure EncOpts where
  algorithm : Option String := none
  saltLength : Option Nat := none
  ivLength : Option Nat := none
  iterations : Option Int := none
  keyLength : Option Int := none

/-- Options of `decryptText` (`iterations` and the `keyLength` hint;
a `none` field models an absent or non-integer JavaScript value, which
`Number.isInteger` rejects). -/
structure DecOpts where
  iterations : Option Int := none
  keyLength : Option Int := none

/-- `randomBytes` of src/crypto.js: positive-integer length check, then
`getRandomValues`. -/
def randomBytes (P : SubtleCrypto) (length : Nat) : Except String Bytes :=
  if length = 0 then .error "randomBytes length must be a positive integer"
  else .ok (P.getRandomValues length)

/-- `validateCipherParams` of src/crypto.js: key length ∈ {16,24,32},
then the IV length fixed by the algorithm. -/
def validateCipherParams (algorithm : String) (keyLength : Int) (ivLength : Nat) :
    Except String Unit :=
  if !([(16 : Int), 24, 32].contains keyLength) then
    .error "AES requires a 16, 24, or 32-byte key length"
  else if algorithm = "AES-GCM" then
    if ivLength ≠ 12 then .error "AES-GCM requires a 12-byte IV length" else .ok ()
  else if algorithm = "AES-CBC" then
    if ivLength ≠ 16 then .error "AES-CBC requires a 16-byte IV length" else .ok ()
  else .error "Unsupported algorithm"

/-- `deriveKeyPBKDF2` of src/crypto.js: validates password, iterations and
key length, derives `keyLength` bytes of key material, imports it as the
(opaque) key and zero-fills the raw material buffer.  The returned value
is the imported key's material; the log records the wiped raw buffer. -/
def deriveKeyPBKDF2 (P : SubtleCrypto) (password : String) (salt : Bytes)
    (iterations : Int) (keyLength : Int) : Except String Bytes × BufLog :=
  if jsTrim password = "" then (.error "Password must not be empty", [])
  else if iterations ≤ 0 then (.error "Iterations must be a positive integer", [])
  else if !([(16 : Int), 24, 32].contains keyLength) then
    (.error "AES requires a 16, 24, or 32-byte key length", [])
  else
    let keyMaterial := P.pbkdf2 password salt iterations.toNat keyLength.toNat
    (.ok keyMaterial, [("keyMaterial", List.replicate keyMaterial.length 0)])

/-- `encryptText` of src/crypto.js: parameter validation, non-empty
checks, fresh salt and IV, key derivation, then the mode-specific encrypt
and the colon-joined hex envelope.  The second component is the buffer
log (see `BufLog`). -/
def encryptText (P : SubtleCrypto) (plaintext password : String)
    (opts : EncOpts) : Except String String × BufLog :=
  let algorithm := jsOrStr opts.algorithm DEFAULTS.algorithm
  let saltLength := jsOrNat opts.saltLength DEFAULTS.saltLength
  let ivLength := jsOrNat opts.ivLength DEFAULTS.ivLength
  let iterations := jsOrInt opts.iterations DEFAULTS.iterations
  let keyLength := jsOrInt opts.keyLength DEFAULTS.keyLength
  match validateCipherParams algorithm keyLength ivLength with
  | .error e => (.error e, [])
  | .ok _ =>
    if jsTrim plaintext = "" then (.error "Plaintext cannot be empty", [])
    else if jsTrim password = "" then (.error "Password cannot be empty", [])
    else
      match randomBytes P saltLength with
      | .error e => (.error e, [])
      | .ok salt =>
        match randomBytes P ivLength with
        | .error e => (.error e, [("salt", salt)])
        | .ok iv =>
          match deriveKeyPBKDF2 P password salt iterations keyLength with
          | (.error e, klog) => (.error e, [("salt", salt), ("iv", iv)] ++ klog)
          | (.ok key, klog) =>
            let log0 := [("salt", salt), ("iv", iv)] ++ klog
            let ptBytes := utf8Encode plaintext
            if algorithm = "AES-GCM" then
              let all := subtleGcmEncrypt P key iv ptBytes
              let log1 := wipeBuf (log0 ++ [("ptBytes", ptBytes), ("all", all)]) "ptBytes"
              if all.length < 16 then
                (.error "Encryption failed: ciphertext too short", wipeBuf log1 "all")
              else
                let cipherLen := all.length - 16
                let ciphertext := all.take cipherLen
                let tag := all.drop cipherLen
                let out := toHex salt ++ ":" ++ toHex iv ++ ":" ++
                  toHex ciphertext ++ ":" ++ toHex tag
                (.ok out,
                  wipeAll (log1 ++ [("ciphertext", ciphertext), ("tag", tag)])
                    ["all", "ciphertext", "tag"])
            else
              let padded := pkcs7Pad ptBytes 16
              let log1 := wipeBuf (log0 ++ [("ptBytes", ptBytes), ("padded", padded)]) "ptBytes"
              let ciphertext := subtleCbcEncrypt P key iv padded
              let log2 := wipeBuf (log1 ++ [("ciphertext", ciphertext)]) "padded"
              let out := toHex salt ++ ":" ++ toHex iv ++ ":" ++ toHex ciphertext
              (.ok out, wipeBuf log2 "ciphertext")

/-- The ordered candidate key lengths of `decryptText`: the caller's hint
first when `Number.isInteger` accepts it, then 32, 24, 16 with the hint
filtered out. -/
def keyOrderOf (hint : Option Int) : List Int :=
  match hint with
  | some h => h :: ([32, 24, 16].filter fun k => k ≠ h)
  | none => [32, 24, 16]

/-- The per-call context of the candidate loop of `decryptText`. -/
structure DecCtx where
  P : SubtleCrypto
  algorithm : String
  password : String
  salt : Bytes
  iv : Bytes
  iterations : Int
  ciphertext : Bytes
  tagOpt : Option Bytes

/-- The `for (const klen of keyOrder)` loop of `decryptText`: per
candidate, validate parameters, derive the key, attempt the mode-specific
decrypt (AES-CBC: the raw interpretation first, then the catch-block that
re-runs the decrypt and unpads), returning on the first success and
falling through to the next candidate on any failure; when every
candidate is exhausted, wipe and fail with the generic message. -/
def decryptCandidates (ctx : DecCtx) : List Int → BufLog → Except String String × BufLog
  | [], log =>
    let wiped := wipeAll log (["salt", "iv", "ciphertext"] ++
      (match ctx.tagOpt with | some _ => ["tag"] | none => []))
    (.error "Decryption failed: wrong password or mismatched parameters", wiped)
  | klen :: rest, log =>
    match validateCipherParams ctx.algorithm klen ctx.iv.length with
    | .error _ => decryptCandidates ctx rest log
    | .ok _ =>
      match deriveKeyPBKDF2 ctx.P ctx.password ctx.salt ctx.iterations klen with
      | (.error _, klog) => decryptCandidates ctx rest (log ++ klog)
      | (.ok key, klog) =>
        let log1 := log ++ klog
        if ctx.algorithm = "AES-GCM" then
          let joined := ctx.ciphertext ++ (match ctx.tagOpt with | some t => t | none => [])
          let jn := "joined" ++ toString klen
          let log2 := log1 ++ [(jn, joined)]
          match subtleGcmDecrypt ctx.P key ctx.iv joined with
          | some ptBytes =>
            let plaintext := utf8Decode ptBytes
            (.ok plaintext,
              wipeAll (log2 ++ [("ptBytes", ptBytes)])
                (["ptBytes", "salt", "iv", "ciphertext"] ++
                  (match ctx.tagOpt with | some _ => ["tag"] | none => []) ++ [jn]))
          | none => decryptCandidates ctx rest log2
        else
          match subtleCbcDecrypt ctx.P key ctx.iv ctx.ciphertext with
          | some ptBytes =>
            let plaintext := utf8Decode ptBytes
            (.ok plaintext,
              wipeAll (log1 ++ [("ptBytes", ptBytes)])
                ["ptBytes", "salt", "iv", "ciphertext"])
          | none =>
            match subtleCbcDecrypt ctx.P key ctx.iv ctx.ciphertext with
            | some padded =>
              let log2 := log1 ++ [("padded", padded)]
              match pkcs7Unpad padded 16 with
              | .ok ptBytes =>
                (.ok (utf8Decode ptBytes),
                  wipeAll (log2 ++ [("ptBytes", ptBytes)])
                    ["ptBytes", "padded", "salt", "iv", "ciphertext"])
              | .error _ => decryptCandidates ctx rest log2
            | none => decryptCandidates ctx rest log1

/-- `decryptText` of src/crypto.js: empty checks, envelope split and hex
decode, structural algorithm inference (4 fields AES-GCM, 3 fields
AES-CBC), candidate key length order, pre-loop parameter validation
against the first candidate, then the candidate loop.  Errors thrown
inside the source's outer `try` are ordinary `Error`s whose messages the
`catch` re-throws unchanged, so the embedding propagates them directly. -/
def decryptText (P : SubtleCrypto) (encString password : String)
    (opts : DecOpts) : Except String String × BufLog :=
  let iterations : Int :=
    match opts.iterations with
    | some i => i
    | none => DEFAULTS.iterations
  if jsTrim encString = "" then (.error "Encrypted input cannot be empty", [])
  else if jsTrim password = "" then (.error "Password cannot be empty", [])
  else
    let parts := splitColon encString
    if parts.length ≠ 3 ∧ parts.length ≠ 4 then
      (.error "Invalid format. Expected salt:iv:ciphertext or salt:iv:ciphertext:tag", [])
    else
      let trimmed := parts.map jsTrim
      let saltHex := trimmed.getD 0 ""
      let ivHex := trimmed.getD 1 ""
      let cipherHex := trimmed.getD 2 ""
      let tagHex := trimmed.getD 3 ""
      match fromHex saltHex with
      | .error e => (.error e, [])
      | .ok salt =>
        match fromHex ivHex with
        | .error e => (.error e, [("salt", salt)])
        | .ok iv =>
          let algorithm := if parts.length = 4 then "AES-GCM" else "AES-CBC"
          let keyOrder := keyOrderOf opts.keyLength
          let log0 := [("salt", salt), ("iv", iv)]
          match validateCipherParams algorithm (keyOrder.headD 0) iv.length with
          | .error e => (.error e, log0)
          | .ok _ =>
            match fromHex cipherHex with
            | .error e => (.error e, log0)
            | .ok ciphertext =>
              match (if algorithm = "AES-GCM" then (fromHex tagHex).map some
                     else .ok none : Except String (Option Bytes)) with
              | .error e => (.error e, log0 ++ [("ciphertext", ciphertext)])
              | .ok tagOpt =>
                let log1 := log0 ++ [("ciphertext", ciphertext)] ++
                  (match tagOpt with | some t => [("tag", t)] | none => [])
                decryptCandidates
                  ⟨P, algorithm, password, salt, iv, iterations, ciphertext, tagOpt⟩
                  keyOrder log1

/-! ## A concrete provider instance

Witnesses and counterexamples need a computable provider.  `toyP` below is
a deterministic instance satisfying `LawfulProvider` whose block
transforms are inverse stream ciphers; it stands in for the black-box
primitives only where a claim is evaluated at a concrete input. -/

/-- A deterministic seed for a string. -/
def strSeed (s : String) : Nat :=
  s.data.foldl (fun a c => (a * 131 + c.toNat) % 100003) 7

/-- A deterministic seed for a byte buffer. -/
def bytesSeed (l : Bytes) : Nat :=
  l.foldl (fun a b => (a * 131 + b) % 100003) 11

/-- A keystream cipher: add the evolving seed to each byte, mod 256. -/
def streamEnc (seed : Nat) : Bytes → Bytes
  | [] => []
  | b :: rest => (b + seed) % 256 :: streamEnc ((seed * 31 + 7) % 100003) rest

/-- Inverse of `streamEnc` on byte values. -/
def streamDec (seed : Nat) : Bytes → Bytes
  | [] => []
  | c :: rest => (c + 256 - seed % 256) % 256 :: streamDec ((seed * 31 + 7) % 100003) rest

/-- The concrete provider instance. -/
def toyP : SubtleCrypto where
  getRandomValues n := (List.range n).map fun i => (i * 37 + 11) % 251 + 1
  pbkdf2 pw s it kl := (List.range kl).map fun i =>
    (strSeed pw * 31 + bytesSeed s * 17 + it * 13 + kl * 7 + i * 3 + 5) % 256
  cbcRawEnc key iv d := streamEnc (bytesSeed key * 53 + bytesSeed iv * 29 + 1) d
  cbcRawDec key iv d := streamDec (bytesSeed key * 53 + bytesSeed iv * 29 + 1) d
  gcmCoreEnc key iv d := streamEnc (bytesSeed key * 59 + bytesSeed iv * 41 + 2) d
  gcmCoreDec key iv d := streamDec (bytesSeed key * 59 + bytesSeed iv * 41 + 2) d
  gcmTag key iv c := (List.range 16).map fun i =>
    (bytesSeed key * 43 + bytesSeed iv * 19 + bytesSeed c * 23 + i * 7 + 3) % 256

/-! ## Predicates used by the claim statements -/

/-- A lowercase hexadecimal character (`0-9a-f`), the alphabet `toHex`
emits. -/
def isLowerHexChar (c : Char) : Bool :=
  (48 ≤ c.toNat && c.toNat ≤ 57) || (97 ≤ c.toNat && c.toNat ≤ 102)

/-- One candidate of the decryption loop fails: its parameter validation
errors, or its key derivation errors, or the mode-specific decrypt is
rejected by the provider (for AES-CBC the catch-block re-runs the same
rejected decrypt, so its rejection settles the whole candidate). -/
def candidateFails (ctx : DecCtx) (klen : Int) : Bool :=
  match validateCipherParams ctx.algorithm klen ctx.iv.length with
  | .error _ => true
  | .ok _ =>
    match (deriveKeyPBKDF2 ctx.P ctx.password ctx.salt ctx.iterations klen).1 with
    | .error _ => true
    | .ok key =>
      if ctx.algorithm = "AES-GCM" then
        (subtleGcmDecrypt ctx.P key ctx.iv
          (ctx.ciphertext ++ (match ctx.tagOpt with | some t => t | none => []))).isNone
      else
        (subtleCbcDecrypt ctx.P key ctx.iv ctx.ciphertext).isNone

/-- The CBC catch-block fallback (source lines 362-381) is taken and
succeeds: the first `subtle.decrypt` is rejected, the re-run returns
bytes, and the PKCS#7 unpadding of those bytes succeeds. -/
def cbcFallbackSucceeds (P : SubtleCrypto) (key iv ct : Bytes) : Prop :=
  subtleCbcDecrypt P key iv ct = none ∧
  ∃ padded, subtleCbcDecrypt P key iv ct = some padded ∧
    (pkcs7Unpad padded 16).isOk

/-- The buffers `decryptText` can leave non-zero on some exit path: the four
parsed envelope fields and the per-candidate joined ciphertext-plus-tag
buffers of the AES-GCM loop.  Every other buffer must end zero-filled. -/
abbrev decryptResidue (e : String × Bytes) : Prop :=
  e.1 = "salt" ∨ e.1 = "iv" ∨ e.1 = "ciphertext" ∨ e.1 = "tag" ∨
  (∃ s, e.1 = "joined" ++ s) ∨ e.2.all (· = 0) = true

/-! ## Concrete inputs for witnesses and counterexamples -/

/-- The spec's concrete CBC scenario parameters. -/
def cbcScenarioOpts : EncOpts :=
  { algorithm := some "AES-CBC", saltLength := some 32, ivLength := some 16,
    iterations := some 100000, keyLength := some 32 }

/-- The envelope the concrete CBC scenario produces under `toyP`. -/
def c1env : String :=
  match (encryptText toyP "hello world" "correct horse battery staple" cbcScenarioOpts).1 with
  | .ok s => s
  | .error _ => ""

/-- A GCM envelope produced under `toyP` with the default 32-byte key. -/
def gcmEnv : String :=
  match (encryptText toyP "hello world" "pw1"
      {algorithm := some "AES-GCM", ivLength := some 12}).1 with
  | .ok s => s
  | .error _ => ""

/-- The envelope of the concrete C2 witness. -/
def c2env : String :=
  match (encryptText toyP "hi" "pw"
      {algorithm := some "AES-GCM", ivLength := some 12}).1 with
  | .ok s => s
  | .error _ => ""

/-- Salt of the concrete key-autodiscovery witness. -/
def c4salt : Bytes := [1, 2, 3, 4]

/-- IV (12 bytes, AES-GCM) of the key-autodiscovery witness. -/
def c4iv : Bytes := List.replicate 12 9

/-- Key derived under `toyP` with a 24-byte key length. -/
def c4key24 : Bytes := toyP.pbkdf2 "pw" c4salt 100000 24

/-- Ciphertext of a GCM envelope produced with the 24-byte key. -/
def c4ct24 : Bytes := toyP.gcmCoreEnc c4key24 c4iv [10, 20, 30]

/-- Tag of the GCM envelope produced with the 24-byte key. -/
def c4tag24 : Bytes := toyP.gcmTag c4key24 c4iv c4ct24

/-- Key derived under `toyP` with a 16-byte key length. -/
def c4key16 : Bytes := toyP.pbkdf2 "pw" c4salt 100000 16

/-- Ciphertext of a GCM envelope produced with the 16-byte key. -/
def c4ct16 : Bytes := toyP.gcmCoreEnc c4key16 c4iv [10, 20, 30]

/-- Tag of the GCM envelope produced with the 16-byte key. -/
def c4tag16 : Bytes := toyP.gcmTag c4key16 c4iv c4ct16

/-- Salt of the concrete CBC raw-path witness. -/
def c5salt : Bytes := [1, 2, 3, 4]

/-- IV (16 bytes, AES-CBC) of the CBC raw-path witness. -/
def c5iv : Bytes := List.replicate 16 5

/-- Key derived under `toyP` with the default 32-byte key length. -/
def c5key : Bytes := toyP.pbkdf2 "pw" c5salt 100000 32

/-- A ciphertext an external producer would make (single padding layer). -/
def c5ct : Bytes := subtleCbcEncrypt toyP c5key c5iv [1, 2, 3]

/-! ## Lemmas: hex digits and `toHex` / `fromHex` -/

theorem hexDigitChar_facts :
    ∀ n < 16, isLowerHexChar (hexDigitChar n) = true ∧
      isHexChar (hexDigitChar n) = true ∧
      hexDigitChar n ≠ ':' ∧
      isJsSpace (hexDigitChar n) = false ∧
      hexCharVal (hexDigitChar n) = n := by decide

theorem mem_byteToHexChars_facts {b : Nat} (hb : b < 256) :
    ∀ c ∈ byteToHexChars b, isLowerHexChar c = true ∧ isHexChar c = true ∧
      c ≠ ':' ∧ isJsSpace c = false := by
  intro c hc
  have h1 : b / 16 < 16 := by omega
  have h2 : b % 16 < 16 := by omega
  rcases hexDigitChar_facts _ h1 with ⟨a1, a2, a3, a4, -⟩
  rcases hexDigitChar_facts _ h2 with ⟨b1, b2, b3, b4, -⟩
  simp only [byteToHexChars, List.mem_cons, List.mem_singleton] at hc
  rcases hc with rfl | rfl | h
  · exact ⟨a1, a2, a3, a4⟩
  · exact ⟨b1, b2, b3, b4⟩
  · cases h

theorem toHex_data (bs : Bytes) :
    (toHex bs).data = (bs.map byteToHexChars).flatten := rfl

theorem mem_toHex_facts {bs : Bytes} (h : ∀ b ∈ bs, b < 256) :
    ∀ c ∈ (toHex bs).data, isLowerHexChar c = true ∧ isHexChar c = true ∧
      c ≠ ':' ∧ isJsSpace c = false := by
  intro c hc
  rw [toHex_data] at hc
  rcases List.mem_flatten.mp hc with ⟨l, hl, hcl⟩
  rcases List.mem_map.mp hl with ⟨b, hb, rfl⟩
  exact mem_byteToHexChars_facts (h b hb) c hcl

theorem toHex_data_length (bs : Bytes) :
    (toHex bs).data.length = 2 * bs.length := by
  rw [toHex_data]
  induction bs with
  | nil => rfl
  | cons b bs ih =>
    simp only [List.map_cons, List.flatten_cons, List.length_append, ih,
      List.length_cons, byteToHexChars, List.length_singleton, List.length_nil]
    ring

theorem hexPairsToBytes_flatten {bs : Bytes} (h : ∀ b ∈ bs, b < 256) :
    hexPairsToBytes (bs.map byteToHexChars).flatten = bs := by
  induction bs with
  | nil => rfl
  | cons b bs ih =>
    have hb : b < 256 := h b (by simp)
    have h1 : b / 16 < 16 := by omega
    have h2 : b % 16 < 16 := by omega
    rcases hexDigitChar_facts _ h1 with ⟨-, -, -, -, v1⟩
    rcases hexDigitChar_facts _ h2 with ⟨-, -, -, -, v2⟩
    simp only [List.map_cons, List.flatten_cons, byteToHexChars, List.cons_append,
      List.nil_append, List.append_eq, hexPairsToBytes, v1, v2]
    rw [ih fun x hx => h x (by simp [hx])]
    congr 1
    omega

/-! ## Lemmas: `jsTrim` and `splitColon` -/

theorem dropWhile_eq_self_of {p : Char → Bool} {l : List Char}
    (h : ∀ c ∈ l, p c = false) : l.dropWhile p = l := by
  cases l with
  | nil => rfl
  | cons a l => simp [List.dropWhile_cons, h a (by simp)]

theorem mem_dropWhile_of {p : Char → Bool} {l : List Char} {c : Char}
    (hc : c ∈ l) (h : p c = false) : c ∈ l.dropWhile p := by
  induction l with
  | nil => cases hc
  | cons a l ih =>
    rcases List.mem_cons.mp hc with rfl | hmem
    · simp [List.dropWhile_cons, h]
    · by_cases ha : p a
      · simpa [List.dropWhile_cons, ha] using ih hmem
      · simp [List.dropWhile_cons, ha, List.mem_cons, hmem]

theorem jsTrim_eq_self {s : String} (h : ∀ c ∈ s.data, isJsSpace c = false) :
    jsTrim s = s := by
  obtain ⟨l⟩ := s
  simp only [jsTrim]
  rw [dropWhile_eq_self_of h, dropWhile_eq_self_of (by
    intro c hc
    exact h c (List.mem_reverse.mp hc)), List.reverse_reverse]

theorem jsTrim_ne_empty {s : String} {c : Char} (hc : c ∈ s.data)
    (h : isJsSpace c = false) : jsTrim s ≠ "" := by
  intro he
  have hdata : (jsTrim s).data = [] := by rw [he]
  have h1 : c ∈ s.data.dropWhile isJsSpace := mem_dropWhile_of hc h
  have h2 : c ∈ (s.data.dropWhile isJsSpace).reverse := List.mem_reverse.mpr h1
  have h3 : c ∈ (s.data.dropWhile isJsSpace).reverse.dropWhile isJsSpace :=
    mem_dropWhile_of h2 h
  have h4 : c ∈ ((s.data.dropWhile isJsSpace).reverse.dropWhile isJsSpace).reverse :=
    List.mem_reverse.mpr h3
  rw [show (jsTrim s).data =
      ((s.data.dropWhile isJsSpace).reverse.dropWhile isJsSpace).reverse from rfl] at hdata
  rw [hdata] at h4
  cases h4

theorem jsTrim_toHex {bs : Bytes} (h : ∀ b ∈ bs, b < 256) :
    jsTrim (toHex bs) = toHex bs :=
  jsTrim_eq_self fun c hc => (mem_toHex_facts h c hc).2.2.2

theorem fromHex_toHex {bs : Bytes} (h : ∀ b ∈ bs, b < 256) :
    fromHex (toHex bs) = .ok bs := by
  cases bs with
  | nil => rfl
  | cons b bs =>
    simp only [fromHex, jsTrim_toHex h]
    have hlen : (toHex (b :: bs)).data.length = 2 * (bs.length + 1) := by
      rw [toHex_data_length]; simp
    rw [if_neg (by omega), if_neg (by omega),
      if_neg (by
        simp only [Bool.not_eq_true', Bool.not_eq_false, List.all_eq_true]
        intro c hc
        exact (mem_toHex_facts h c hc).2.1)]
    rw [toHex_data, hexPairsToBytes_flatten h]

theorem colon_not_mem_toHex {bs : Bytes} (h : ∀ b ∈ bs, b < 256) :
    ':' ∉ (toHex bs).data := by
  intro hc
  exact (mem_toHex_facts h ':' hc).2.2.1 rfl

theorem splitColonChars_nocolon {l : List Char} (h : ':' ∉ l) :
    splitColonChars l = [l] := by
  induction l with
  | nil => rfl
  | cons c l ih =>
    have hc : c ≠ ':' := fun he => h (by simp [he])
    have hl : ':' ∉ l := fun he => h (by simp [he])
    simp only [splitColonChars, if_neg hc, ih hl]

theorem splitColonChars_append {l1 l2 : List Char} (h : ':' ∉ l1) :
    splitColonChars (l1 ++ ':' :: l2) = l1 :: splitColonChars l2 := by
  induction l1 with
  | nil => simp [splitColonChars]
  | cons c l1 ih =>
    have hc : c ≠ ':' := fun he => h (by simp [he])
    have hl : ':' ∉ l1 := fun he => h (by simp [he])
    simp only [List.cons_append, splitColonChars, if_neg hc, List.append_eq, ih hl]

theorem splitColon_three {a b c : String} (ha : ':' ∉ a.data)
    (hb : ':' ∉ b.data) (hc : ':' ∉ c.data) :
    splitColon (a ++ ":" ++ b ++ ":" ++ c) = [a, b, c] := by
  have hdata : (a ++ ":" ++ b ++ ":" ++ c).data =
      a.data ++ ':' :: (b.data ++ ':' :: c.data) := by
    simp [String.data_append]
  simp only [splitColon, hdata, splitColonChars_append ha,
    splitColonChars_append hb, splitColonChars_nocolon hc, List.map_cons,
    List.map_nil]

theorem splitColon_four {a b c d : String} (ha : ':' ∉ a.data)
    (hb : ':' ∉ b.data) (hc : ':' ∉ c.data) (hd : ':' ∉ d.data) :
    splitColon (a ++ ":" ++ b ++ ":" ++ c ++ ":" ++ d) = [a, b, c, d] := by
  have hdata : (a ++ ":" ++ b ++ ":" ++ c ++ ":" ++ d).data =
      a.data ++ ':' :: (b.data ++ ':' :: (c.data ++ ':' :: d.data)) := by
    simp [String.data_append]
  simp only [splitColon, hdata, splitColonChars_append ha,
    splitColonChars_append hb, splitColonChars_append hc,
    splitColonChars_nocolon hd, List.map_cons, List.map_nil]

/-! ## Lemmas: UTF-8 -/

theorem char_valid_range (c : Char) :
    c.toNat < 55296 ∨ (57343 < c.toNat ∧ c.toNat < 1114112) := c.valid

theorem utf8EncodeChar_lt (c : Char) : ∀ b ∈ utf8EncodeChar c, b < 256 := by
  have hv := char_valid_range c
  intro b hb
  simp only [utf8EncodeChar] at hb
  split_ifs at hb with h1 h2 h3
  · simp only [List.mem_singleton] at hb
    omega
  · simp only [List.mem_cons, List.not_mem_nil, or_false] at hb
    rcases hb with rfl | rfl <;> omega
  · simp only [List.mem_cons, List.not_mem_nil, or_false] at hb
    rcases hb with rfl | rfl | rfl <;> omega
  · simp only [List.mem_cons, List.not_mem_nil, or_false] at hb
    rcases hb with rfl | rfl | rfl | rfl <;> omega

theorem utf8Encode_lt (s : String) : ∀ b ∈ utf8Encode s, b < 256 := by
  intro b hb
  rcases List.mem_flatten.mp hb with ⟨l, hl, hbl⟩
  rcases List.mem_map.mp hl with ⟨c, _, rfl⟩
  exact utf8EncodeChar_lt c b hbl

theorem utf8DecodeChars_nil : utf8DecodeChars [] = [] := by
  rw [utf8DecodeChars.eq_def]

theorem utf8DecodeChars_ascii {b : Nat} (rest : List Nat) (h : b < 128) :
    utf8DecodeChars (b :: rest) = Char.ofNat b :: utf8DecodeChars rest := by
  conv_lhs => rw [utf8DecodeChars.eq_def]
  dsimp only
  rw [if_pos h]

theorem utf8DecodeChars_two {b b2 : Nat} (rest2 : List Nat) (h1 : ¬ b < 128)
    (h2 : ¬(b < 194 ∨ 244 < b)) (h3 : utf8SecondLo b ≤ b2 ∧ b2 ≤ utf8SecondHi b)
    (h4 : b < 224) :
    utf8DecodeChars (b :: b2 :: rest2) =
      Char.ofNat ((b - 192) * 64 + (b2 - 128)) :: utf8DecodeChars rest2 := by
  conv_lhs => rw [utf8DecodeChars.eq_def]
  dsimp only
  rw [if_neg h1, if_neg h2, if_pos h3, if_pos h4]

theorem utf8DecodeChars_three {b b2 b3 : Nat} (rest3 : List Nat) (h1 : ¬ b < 128)
    (h2 : ¬(b < 194 ∨ 244 < b)) (h3 : utf8SecondLo b ≤ b2 ∧ b2 ≤ utf8SecondHi b)
    (h4 : ¬ b < 224) (h5 : 128 ≤ b3 ∧ b3 < 192) (h6 : b < 240) :
    utf8DecodeChars (b :: b2 :: b3 :: rest3) =
      Char.ofNat ((b - 224) * 4096 + (b2 - 128) * 64 + (b3 - 128)) ::
        utf8DecodeChars rest3 := by
  conv_lhs => rw [utf8DecodeChars.eq_def]
  dsimp only
  rw [if_neg h1, if_neg h2, if_pos h3, if_neg h4, if_pos h5, if_pos h6]

theorem utf8DecodeChars_four {b b2 b3 b4 : Nat} (rest4 : List Nat) (h1 : ¬ b < 128)
    (h2 : ¬(b < 194 ∨ 244 < b)) (h3 : utf8SecondLo b ≤ b2 ∧ b2 ≤ utf8SecondHi b)
    (h4 : ¬ b < 224) (h5 : 128 ≤ b3 ∧ b3 < 192) (h6 : ¬ b < 240)
    (h7 : 128 ≤ b4 ∧ b4 < 192) :
    utf8DecodeChars (b :: b2 :: b3 :: b4 :: rest4) =
      Char.ofNat ((b - 240) * 262144 + (b2 - 128) * 4096 + (b3 - 128) * 64 +
        (b4 - 128)) :: utf8DecodeChars rest4 := by
  conv_lhs => rw [utf8DecodeChars.eq_def]
  dsimp only
  rw [if_neg h1, if_neg h2, if_pos h3, if_neg h4, if_pos h5, if_neg h6, if_pos h7]

theorem utf8DecodeChars_encodeChar_append (c : Char) (tail : Bytes) :
    utf8DecodeChars (utf8EncodeChar c ++ tail) = c :: utf8DecodeChars tail := by
  have hv := char_valid_range c
  by_cases h1 : c.toNat < 128
  · rw [show utf8EncodeChar c = [c.toNat] from by simp [utf8EncodeChar, h1],
      List.cons_append, List.nil_append, utf8DecodeChars_ascii tail h1,
      Char.ofNat_toNat]
  · by_cases h2 : c.toNat < 2048
    · rw [show utf8EncodeChar c = [192 + c.toNat / 64, 128 + c.toNat % 64] from by
        simp [utf8EncodeChar, h1, h2],
        List.cons_append, List.cons_append, List.nil_append,
        utf8DecodeChars_two tail (by omega) (by omega)
          (by simp only [utf8SecondLo, utf8SecondHi]
              rw [if_neg (by omega), if_neg (by omega), if_neg (by omega),
                if_neg (by omega)]
              omega)
          (by omega),
        show (192 + c.toNat / 64 - 192) * 64 + (128 + c.toNat % 64 - 128) = c.toNat
          from by omega,
        Char.ofNat_toNat]
    · by_cases h3 : c.toNat < 65536
      · rw [show utf8EncodeChar c =
            [224 + c.toNat / 4096, 128 + (c.toNat / 64) % 64, 128 + c.toNat % 64] from by
          simp [utf8EncodeChar, h1, h2, h3],
          List.cons_append, List.cons_append, List.cons_append, List.nil_append,
          utf8DecodeChars_three tail (by omega) (by omega)
            (by simp only [utf8SecondLo, utf8SecondHi]
                rcases Nat.lt_or_ge c.toNat 4096 with h4 | h4
                · rw [show 224 + c.toNat / 4096 = 224 from by omega]
                  rw [if_pos rfl, if_neg (by omega), if_neg (by omega)]
                  omega
                · rw [if_neg (by omega), if_neg (by omega)]
                  rcases Nat.lt_or_ge c.toNat 53248 with h5 | h5
                  · rw [if_neg (by omega), if_neg (by omega)]
                    omega
                  · rcases Nat.lt_or_ge c.toNat 57344 with h6 | h6
                    · rw [if_pos (by omega)]
                      omega
                    · rw [if_neg (by omega), if_neg (by omega)]
                      omega)
            (by omega) (by omega) (by omega),
          show (224 + c.toNat / 4096 - 224) * 4096 +
              (128 + (c.toNat / 64) % 64 - 128) * 64 + (128 + c.toNat % 64 - 128) =
              c.toNat from by omega,
          Char.ofNat_toNat]
      · rw [show utf8EncodeChar c =
            [240 + c.toNat / 262144, 128 + (c.toNat / 4096) % 64,
             128 + (c.toNat / 64) % 64, 128 + c.toNat % 64] from by
          simp [utf8EncodeChar, h1, h2, h3],
          List.cons_append, List.cons_append, List.cons_append, List.cons_append,
          List.nil_append,
          utf8DecodeChars_four tail (by omega) (by omega)
            (by simp only [utf8SecondLo, utf8SecondHi]
                rcases Nat.lt_or_ge c.toNat 262144 with h4 | h4
                · rw [if_neg (by omega), if_pos (by omega), if_neg (by omega),
                    if_neg (by omega)]
                  omega
                · rcases Nat.lt_or_ge c.toNat 1048576 with h5 | h5
                  · rw [if_neg (by omega), if_neg (by omega), if_neg (by omega),
                      if_neg (by omega)]
                    omega
                  · rw [if_neg (by omega), if_neg (by omega), if_neg (by omega),
                      if_pos (by omega)]
                    omega)
            (by omega) (by omega) (by omega) (by omega),
          show (240 + c.toNat / 262144 - 240) * 262144 +
              (128 + (c.toNat / 4096) % 64 - 128) * 4096 +
              (128 + (c.toNat / 64) % 64 - 128) * 64 + (128 + c.toNat % 64 - 128) =
              c.toNat from by omega,
          Char.ofNat_toNat]

theorem utf8DecodeChars_encode_append (l : List Char) (extra : Bytes) :
    utf8DecodeChars ((l.map utf8EncodeChar).flatten ++ extra) =
      l ++ utf8DecodeChars extra := by
  induction l with
  | nil => simp
  | cons c l ih =>
    simp only [List.map_cons, List.flatten_cons, List.append_assoc,
      utf8DecodeChars_encodeChar_append, ih, List.cons_append]

theorem utf8DecodeChars_replicate {k n : Nat} (hk : k < 128) :
    utf8DecodeChars (List.replicate n k) = List.replicate n (Char.ofNat k) := by
  induction n with
  | zero => exact utf8DecodeChars_nil
  | succ n ih =>
    rw [List.replicate_succ, List.replicate_succ, utf8DecodeChars_ascii _ hk, ih]

/-! ## Lemmas: PKCS#7 -/

theorem pkcs7Pad_eq (data : Bytes) :
    pkcs7Pad data 16 =
      data ++ List.replicate (16 - data.length % 16) (16 - data.length % 16) := by
  simp only [pkcs7Pad]
  by_cases h : data.length % 16 = 0
  · rw [if_pos h, h]
  · rw [if_neg h]

theorem padLen_bounds (data : Bytes) :
    1 ≤ 16 - data.length % 16 ∧ 16 - data.length % 16 ≤ 16 := by
  have := Nat.mod_lt data.length (y := 16) (by omega)
  omega

theorem getLastD_append_replicate {data : Bytes} {m : Nat} (hm : 1 ≤ m) :
    (data ++ List.replicate m m).getLastD 0 = m := by
  obtain ⟨k, rfl⟩ : ∃ k, m = k + 1 := ⟨m - 1, by omega⟩
  rw [List.replicate_succ']
  rw [← List.append_assoc, List.getLastD_concat]

theorem pkcs7Unpad_pkcs7Pad (data : Bytes) :
    pkcs7Unpad (pkcs7Pad data 16) 16 = .ok data := by
  obtain ⟨h1, h2⟩ := padLen_bounds data
  set m := 16 - data.length % 16 with hm
  rw [pkcs7Pad_eq, ← hm]
  have hlen : (data ++ List.replicate m m).length = data.length + m := by simp
  have hlast : (data ++ List.replicate m m).getLastD 0 = m :=
    getLastD_append_replicate h1
  have hdrop : (data ++ List.replicate m m).drop (data.length + m - m) =
      List.replicate m m := by
    rw [show data.length + m - m = data.length from by omega]
    exact List.drop_left _ _
  have htake : (data ++ List.replicate m m).take (data.length + m - m) = data := by
    rw [show data.length + m - m = data.length from by omega]
    exact List.take_left _ _
  have hall : (List.replicate m m).all (· = m) = true := by
    rw [List.all_eq_true]
    intro b hb
    simp [List.eq_of_mem_replicate hb]
  simp only [pkcs7Unpad, hlast, hlen]
  rw [if_neg (by omega), if_neg (by omega), hdrop, if_pos hall, htake]

/-! ## Lemmas: the stream cipher of the concrete provider -/

theorem streamEnc_length (seed : Nat) (l : Bytes) :
    (streamEnc seed l).length = l.length := by
  induction l generalizing seed with
  | nil => rfl
  | cons b l ih => simp [streamEnc, ih]

theorem streamEnc_lt (seed : Nat) (l : Bytes) : ∀ b ∈ streamEnc seed l, b < 256 := by
  induction l generalizing seed with
  | nil => intro b hb; cases hb
  | cons a l ih =>
    intro b hb
    rcases List.mem_cons.mp hb with rfl | hb
    · exact Nat.mod_lt _ (by omega)
    · exact ih _ b hb

theorem streamDec_streamEnc (seed : Nat) {l : Bytes} (h : ∀ b ∈ l, b < 256) :
    streamDec seed (streamEnc seed l) = l := by
  induction l generalizing seed with
  | nil => rfl
  | cons b l ih =>
    have hb : b < 256 := h b (by simp)
    simp only [streamEnc, streamDec]
    rw [show ((b + seed) % 256 + 256 - seed % 256) % 256 = b from by omega,
      ih _ fun x hx => h x (by simp [hx])]

theorem toyP_lawful : LawfulProvider toyP := by
  constructor
  · intro n
    simp [toyP]
  · intro n b hb
    simp only [toyP, List.mem_map, List.mem_range] at hb
    obtain ⟨i, -, rfl⟩ := hb
    have := Nat.mod_lt (i * 37 + 11) (y := 251) (by omega)
    omega
  · intro pw s it kl b hb
    simp only [toyP, List.mem_map, List.mem_range] at hb
    obtain ⟨i, -, rfl⟩ := hb
    exact Nat.mod_lt _ (by omega)
  · intro k iv d
    exact streamEnc_length _ _
  · intro k iv d
    exact streamEnc_lt _ _
  · intro k iv d
    exact streamEnc_length _ _
  · intro k iv d
    exact streamEnc_lt _ _
  · intro k iv c
    simp [toyP]
  · intro k iv c b hb
    simp only [toyP, List.mem_map, List.mem_range] at hb
    obtain ⟨i, -, rfl⟩ := hb
    exact Nat.mod_lt _ (by omega)

/-! ## Lemmas: the wipe log -/

theorem wipeBuf_entries {log : BufLog} {nm : String} {e : String × Bytes}
    (he : e ∈ wipeBuf log nm) :
    (e.1 = nm ∧ e.2.all (· = 0) = true) ∨ (e.1 ≠ nm ∧ e ∈ log) := by
  rcases List.mem_map.mp he with ⟨e0, he0, rfl⟩
  by_cases h : e0.1 = nm
  · left
    rw [if_pos h]
    refine ⟨h, ?_⟩
    rw [List.all_eq_true]
    intro b hb
    simp [List.eq_of_mem_replicate hb]
  · right
    rw [if_neg h]
    exact ⟨h, he0⟩

theorem wipeAll_cons (log : BufLog) (nm : String) (nms : List String) :
    wipeAll log (nm :: nms) = wipeAll (wipeBuf log nm) nms := rfl

theorem wipeAll_entries {log : BufLog} {nms : List String} {e : String × Bytes}
    (he : e ∈ wipeAll log nms) :
    (e.1 ∈ nms ∧ e.2.all (· = 0) = true) ∨ e ∈ log := by
  induction nms generalizing log with
  | nil => exact .inr he
  | cons nm nms ih =>
    rw [wipeAll_cons] at he
    rcases ih he with ⟨h1, h2⟩ | h
    · exact .inl ⟨by simp [h1], h2⟩
    · rcases wipeBuf_entries h with ⟨h1, h2⟩ | ⟨-, h2⟩
      · exact .inl ⟨by simp [h1], h2⟩
      · exact .inr h2

theorem wipeAll_zeroed {log : BufLog} {nms : List String} {e : String × Bytes}
    (he : e ∈ wipeAll log nms) (hn : e.1 ∈ nms) : e.2.all (· = 0) = true := by
  induction nms generalizing log with
  | nil => cases hn
  | cons nm nms ih =>
    rw [wipeAll_cons] at he
    by_cases h2 : e.1 ∈ nms
    · exact ih he h2
    · rcases wipeAll_entries he with ⟨h3, h4⟩ | h3
      · exact absurd h3 h2
      · rcases List.mem_cons.mp hn with h1 | h1
        · rcases wipeBuf_entries h3 with ⟨-, h4⟩ | ⟨h4, -⟩
          · exact h4
          · exact absurd h1 h4
        · exact absurd h1 h2

/-! ## Lemmas: the candidate loop of `decryptText` -/

theorem decryptCandidates_nil_fst (ctx : DecCtx) (log : BufLog) :
    (decryptCandidates ctx [] log).1 =
      .error "Decryption failed: wrong password or mismatched parameters" := rfl

theorem decryptCandidates_fst_log (ctx : DecCtx) (ks : List Int) (log log2 : BufLog) :
    (decryptCandidates ctx ks log).1 = (decryptCandidates ctx ks log2).1 := by
  induction ks generalizing log log2 with
  | nil => rfl
  | cons k ks ih =>
    simp only [decryptCandidates]
    cases hv : validateCipherParams ctx.algorithm k ctx.iv.length with
    | error e => exact ih log log2
    | ok u =>
      rcases hd : deriveKeyPBKDF2 ctx.P ctx.password ctx.salt ctx.iterations k
        with ⟨res, klog⟩
      cases res with
      | error e => exact ih _ _
      | ok key =>
        by_cases halg : ctx.algorithm = "AES-GCM"
        · simp only [halg, if_pos rfl]
          cases hg : subtleGcmDecrypt ctx.P key ctx.iv
              (ctx.ciphertext ++ (match ctx.tagOpt with | some t => t | none => [])) with
          | some pt => rfl
          | none => exact ih _ _
        · simp only [if_neg halg]
          cases hc : subtleCbcDecrypt ctx.P key ctx.iv ctx.ciphertext with
          | some pt => rfl
          | none =>
            simp only [hc]
            exact ih _ _

theorem decryptCandidates_fst_fail {ctx : DecCtx} {k : Int} (rest : List Int)
    (log : BufLog) (h : candidateFails ctx k = true) :
    (decryptCandidates ctx (k :: rest) log).1 =
      (decryptCandidates ctx rest log).1 := by
  unfold candidateFails at h
  simp only [decryptCandidates]
  cases hv : validateCipherParams ctx.algorithm k ctx.iv.length with
  | error e => exact decryptCandidates_fst_log ..
  | ok u =>
    rw [hv] at h
    rcases hd : deriveKeyPBKDF2 ctx.P ctx.password ctx.salt ctx.iterations k
      with ⟨res, klog⟩
    rw [hd] at h
    cases res with
    | error e => exact decryptCandidates_fst_log ..
    | ok key =>
      by_cases halg : ctx.algorithm = "AES-GCM"
      · simp only [halg, if_pos rfl] at h ⊢
        cases hg : subtleGcmDecrypt ctx.P key ctx.iv
            (ctx.ciphertext ++ (match ctx.tagOpt with | some t => t | none => [])) with
        | some pt => rw [hg] at h; simp at h
        | none => exact decryptCandidates_fst_log ..
      · simp only [if_neg halg] at h ⊢
        cases hc : subtleCbcDecrypt ctx.P key ctx.iv ctx.ciphertext with
        | some pt => rw [hc] at h; simp at h
        | none =>
          simp only [hc]
          exact decryptCandidates_fst_log ..

theorem decryptCandidates_fst_all_fail {ctx : DecCtx} {ks : List Int}
    (log : BufLog) (h : ∀ k ∈ ks, candidateFails ctx k = true) :
    (decryptCandidates ctx ks log).1 =
      .error "Decryption failed: wrong password or mismatched parameters" := by
  induction ks generalizing log with
  | nil => rfl
  | cons k ks ih =>
    rw [decryptCandidates_fst_fail ks log (h k (by simp))]
    exact ih log fun x hx => h x (by simp [hx])

theorem decryptCandidates_fst_gcm_ok {ctx : DecCtx} {k : Int} {key pt : Bytes}
    (rest : List Int) (log : BufLog)
    (halg : ctx.algorithm = "AES-GCM")
    (hv : validateCipherParams ctx.algorithm k ctx.iv.length = .ok ())
    (hd : (deriveKeyPBKDF2 ctx.P ctx.password ctx.salt ctx.iterations k).1 = .ok key)
    (hg : subtleGcmDecrypt ctx.P key ctx.iv
      (ctx.ciphertext ++ (match ctx.tagOpt with | some t => t | none => [])) = some pt) :
    (decryptCandidates ctx (k :: rest) log).1 = .ok (utf8Decode pt) := by
  rcases hdp : deriveKeyPBKDF2 ctx.P ctx.password ctx.salt ctx.iterations k
    with ⟨res, klog⟩
  have hres : res = .ok key := by rw [← hd, hdp]
  subst hres
  rw [halg] at hv
  simp only [decryptCandidates, hv, hdp, halg, if_true, eq_self_iff_true, hg]

theorem decryptCandidates_fst_cbc_raw_ok {ctx : DecCtx} {k : Int} {key buf : Bytes}
    (rest : List Int) (log : BufLog)
    (halg : ctx.algorithm = "AES-CBC")
    (hv : validateCipherParams ctx.algorithm k ctx.iv.length = .ok ())
    (hd : (deriveKeyPBKDF2 ctx.P ctx.password ctx.salt ctx.iterations k).1 = .ok key)
    (hc : subtleCbcDecrypt ctx.P key ctx.iv ctx.ciphertext = some buf) :
    (decryptCandidates ctx (k :: rest) log).1 = .ok (utf8Decode buf) := by
  rcases hdp : deriveKeyPBKDF2 ctx.P ctx.password ctx.salt ctx.iterations k
    with ⟨res, klog⟩
  have hres : res = .ok key := by rw [← hd, hdp]
  subst hres
  have hne : ctx.algorithm ≠ "AES-GCM" := by rw [halg]; decide
  rw [halg] at hv
  simp only [decryptCandidates, hv, hdp, halg, hc]
  rw [if_neg (by decide : ¬("AES-CBC" : String) = "AES-GCM")]

/-! ## Lemmas: the parse stage of `decryptText` -/

set_option maxHeartbeats 2000000 in
theorem decryptText_parsed_cbc (P : SubtleCrypto) {salt iv ct : Bytes}
    (password : String) (opts : DecOpts)
    (hs : ∀ b ∈ salt, b < 256) (hi : ∀ b ∈ iv, b < 256) (hc : ∀ b ∈ ct, b < 256)
    (hpw : jsTrim password ≠ "")
    (hval : validateCipherParams "AES-CBC" ((keyOrderOf opts.keyLength).headD 0)
      iv.length = .ok ()) :
    decryptText P (toHex salt ++ ":" ++ toHex iv ++ ":" ++ toHex ct) password opts =
      decryptCandidates
        ⟨P, "AES-CBC", password, salt, iv,
          (match opts.iterations with | some i => i | none => DEFAULTS.iterations),
          ct, none⟩
        (keyOrderOf opts.keyLength)
        [("salt", salt), ("iv", iv), ("ciphertext", ct)] := by
  have henv : splitColon (toHex salt ++ ":" ++ toHex iv ++ ":" ++ toHex ct) =
      [toHex salt, toHex iv, toHex ct] :=
    splitColon_three (colon_not_mem_toHex hs) (colon_not_mem_toHex hi)
      (colon_not_mem_toHex hc)
  have hne : jsTrim (toHex salt ++ ":" ++ toHex iv ++ ":" ++ toHex ct) ≠ "" :=
    jsTrim_ne_empty (c := ':') (by simp [String.data_append]) (by decide)
  simp only [decryptText, if_neg hne, if_neg hpw, henv, List.length_cons,
    List.length_nil, List.map_cons, List.map_nil, jsTrim_toHex hs,
    jsTrim_toHex hi, jsTrim_toHex hc, List.getD, List.getElem?_cons_zero,
    List.getElem?_cons_succ, Option.getD_some, fromHex_toHex hs, fromHex_toHex hi,
    fromHex_toHex hc]
  rw [if_neg (by omega)]
  norm_num [List.get?_cons_zero, List.get?_cons_succ, Option.getD_some,
    fromHex_toHex hs, fromHex_toHex hi, fromHex_toHex hc]
  rw [List.headD_eq_head?_getD] at hval
  rw [hval]
  rw [if_neg (by decide : ¬("AES-CBC" : String) = "AES-GCM")]

set_option maxHeartbeats 2000000 in
theorem decryptText_parsed_gcm (P : SubtleCrypto) {salt iv ct tag : Bytes}
    (password : String) (opts : DecOpts)
    (hs : ∀ b ∈ salt, b < 256) (hi : ∀ b ∈ iv, b < 256) (hc : ∀ b ∈ ct, b < 256)
    (ht : ∀ b ∈ tag, b < 256)
    (hpw : jsTrim password ≠ "")
    (hval : validateCipherParams "AES-GCM" ((keyOrderOf opts.keyLength).headD 0)
      iv.length = .ok ()) :
    decryptText P
      (toHex salt ++ ":" ++ toHex iv ++ ":" ++ toHex ct ++ ":" ++ toHex tag)
      password opts =
      decryptCandidates
        ⟨P, "AES-GCM", password, salt, iv,
          (match opts.iterations with | some i => i | none => DEFAULTS.iterations),
          ct, some tag⟩
        (keyOrderOf opts.keyLength)
        [("salt", salt), ("iv", iv), ("ciphertext", ct), ("tag", tag)] := by
  have henv : splitColon
      (toHex salt ++ ":" ++ toHex iv ++ ":" ++ toHex ct ++ ":" ++ toHex tag) =
      [toHex salt, toHex iv, toHex ct, toHex tag] :=
    splitColon_four (colon_not_mem_toHex hs) (colon_not_mem_toHex hi)
      (colon_not_mem_toHex hc) (colon_not_mem_toHex ht)
  have hne : jsTrim
      (toHex salt ++ ":" ++ toHex iv ++ ":" ++ toHex ct ++ ":" ++ toHex tag) ≠ "" :=
    jsTrim_ne_empty (c := ':') (by simp [String.data_append]) (by decide)
  simp only [decryptText, if_neg hne, if_neg hpw, henv, List.length_cons,
    List.length_nil, List.map_cons, List.map_nil, jsTrim_toHex hs,
    jsTrim_toHex hi, jsTrim_toHex hc, jsTrim_toHex ht, List.getD,
    List.getElem?_cons_zero, List.getElem?_cons_succ, Option.getD_some,
    fromHex_toHex hs, fromHex_toHex hi, fromHex_toHex hc, fromHex_toHex ht]
  rw [if_neg (by omega)]
  norm_num [List.get?_cons_zero, List.get?_cons_succ, Option.getD_some,
    fromHex_toHex hs, fromHex_toHex hi, fromHex_toHex hc, fromHex_toHex ht]
  rw [List.headD_eq_head?_getD] at hval
  rw [hval]
  rfl

/-! ## Lemmas: `encryptText` -/

theorem validateCipherParams_ok_keyLength {alg : String} {kl : Int} {ivl : Nat}
    (h : validateCipherParams alg kl ivl = .ok ()) :
    ([(16 : Int), 24, 32].contains kl) = true := by
  unfold validateCipherParams at h
  by_cases hc : ([(16 : Int), 24, 32].contains kl) = true
  · exact hc
  · have hfalse : ([(16 : Int), 24, 32].contains kl) = false := by
      cases hb : ([(16 : Int), 24, 32].contains kl)
      · rfl
      · exact absurd hb hc
    rw [if_pos (by rw [hfalse]; rfl)] at h
    cases h

theorem encryptText_cbc_fst (P : SubtleCrypto) (plaintext password : String)
    (opts : EncOpts)
    (halg : jsOrStr opts.algorithm DEFAULTS.algorithm = "AES-CBC")
    (hval : validateCipherParams "AES-CBC" (jsOrInt opts.keyLength DEFAULTS.keyLength)
      (jsOrNat opts.ivLength DEFAULTS.ivLength) = .ok ())
    (hpt : jsTrim plaintext ≠ "") (hpw : jsTrim password ≠ "")
    (hsl : jsOrNat opts.saltLength DEFAULTS.saltLength ≠ 0)
    (hil : jsOrNat opts.ivLength DEFAULTS.ivLength ≠ 0)
    (hit : 0 < jsOrInt opts.iterations DEFAULTS.iterations) :
    (encryptText P plaintext password opts).1 =
      .ok (toHex (P.getRandomValues (jsOrNat opts.saltLength DEFAULTS.saltLength)) ++
        ":" ++ toHex (P.getRandomValues (jsOrNat opts.ivLength DEFAULTS.ivLength)) ++
        ":" ++ toHex (subtleCbcEncrypt P
          (P.pbkdf2 password
            (P.getRandomValues (jsOrNat opts.saltLength DEFAULTS.saltLength))
            (jsOrInt opts.iterations DEFAULTS.iterations).toNat
            (jsOrInt opts.keyLength DEFAULTS.keyLength).toNat)
          (P.getRandomValues (jsOrNat opts.ivLength DEFAULTS.ivLength))
          (pkcs7Pad (utf8Encode plaintext) 16))) := by
  have hkl := validateCipherParams_ok_keyLength hval
  simp only [encryptText, halg, hval, if_neg hpt, if_neg hpw, randomBytes,
    if_neg hsl, if_neg hil, deriveKeyPBKDF2, if_neg hpw,
    if_neg (by omega : ¬(jsOrInt opts.iterations DEFAULTS.iterations ≤ 0)),
    hkl, Bool.not_true, Bool.false_eq_true, if_false,
    if_neg (by decide : ¬("AES-CBC" : String) = "AES-GCM")]

theorem encryptText_gcm_fst (P : SubtleCrypto) (hP : LawfulProvider P)
    (plaintext password : String) (opts : EncOpts)
    (halg : jsOrStr opts.algorithm DEFAULTS.algorithm = "AES-GCM")
    (hval : validateCipherParams "AES-GCM" (jsOrInt opts.keyLength DEFAULTS.keyLength)
      (jsOrNat opts.ivLength DEFAULTS.ivLength) = .ok ())
    (hpt : jsTrim plaintext ≠ "") (hpw : jsTrim password ≠ "")
    (hsl : jsOrNat opts.saltLength DEFAULTS.saltLength ≠ 0)
    (hil : jsOrNat opts.ivLength DEFAULTS.ivLength ≠ 0)
    (hit : 0 < jsOrInt opts.iterations DEFAULTS.iterations) :
    ∃ all : Bytes, all.length = (utf8Encode plaintext).length + 16 ∧
      (∀ b ∈ all, b < 256) ∧
      (encryptText P plaintext password opts).1 =
        .ok (toHex (P.getRandomValues (jsOrNat opts.saltLength DEFAULTS.saltLength)) ++
          ":" ++ toHex (P.getRandomValues (jsOrNat opts.ivLength DEFAULTS.ivLength)) ++
          ":" ++ toHex (all.take (all.length - 16)) ++
          ":" ++ toHex (all.drop (all.length - 16))) := by
  have hkl := validateCipherParams_ok_keyLength hval
  refine ⟨subtleGcmEncrypt P
      (P.pbkdf2 password
        (P.getRandomValues (jsOrNat opts.saltLength DEFAULTS.saltLength))
        (jsOrInt opts.iterations DEFAULTS.iterations).toNat
        (jsOrInt opts.keyLength DEFAULTS.keyLength).toNat)
      (P.getRandomValues (jsOrNat opts.ivLength DEFAULTS.ivLength))
      (utf8Encode plaintext), ?_, ?_, ?_⟩
  · simp [subtleGcmEncrypt, hP.gcm_length, hP.tag_length]
  · intro b hb
    rcases List.mem_append.mp hb with h | h
    · exact hP.gcm_lt _ _ _ b h
    · exact hP.tag_lt _ _ _ b h
  · simp only [encryptText, halg, hval, if_neg hpt, if_neg hpw, randomBytes,
      if_neg hsl, if_neg hil, deriveKeyPBKDF2, if_neg hpw,
      if_neg (by omega : ¬(jsOrInt opts.iterations DEFAULTS.iterations ≤ 0)),
      hkl, Bool.not_true, Bool.false_eq_true, if_false, eq_self_iff_true, if_true]
    rw [if_neg (by
      simp only [subtleGcmEncrypt, List.length_append, hP.gcm_length, hP.tag_length]
      omega)]

/-! ## Inversion lemmas for success outcomes -/

theorem randomBytes_ok {P : SubtleCrypto} {n : Nat} {bs : Bytes}
    (h : randomBytes P n = .ok bs) : n ≠ 0 ∧ bs = P.getRandomValues n := by
  unfold randomBytes at h
  by_cases h0 : n = 0
  · rw [if_pos h0] at h
    cases h
  · rw [if_neg h0] at h
    exact ⟨h0, (Except.ok.inj h).symm⟩

theorem deriveKeyPBKDF2_ok {P : SubtleCrypto} {pw : String} {salt : Bytes}
    {it kl : Int} {key : Bytes} {klog : BufLog}
    (h : deriveKeyPBKDF2 P pw salt it kl = (.ok key, klog)) :
    jsTrim pw ≠ "" ∧ 0 < it ∧ ([(16 : Int), 24, 32].contains kl) = true ∧
      key = P.pbkdf2 pw salt it.toNat kl.toNat := by
  unfold deriveKeyPBKDF2 at h
  by_cases h1 : jsTrim pw = ""
  · rw [if_pos h1] at h
    cases h
  · rw [if_neg h1] at h
    by_cases h2 : it ≤ 0
    · rw [if_pos h2] at h
      cases h
    · rw [if_neg h2] at h
      by_cases h3 : ([(16 : Int), 24, 32].contains kl) = true
      · rw [if_neg (by rw [h3]; decide)] at h
        have := congrArg Prod.fst h
        simp only at this
        exact ⟨h1, by omega, h3, (Except.ok.inj this).symm⟩
      · rw [if_pos (by
          cases hb : ([(16 : Int), 24, 32].contains kl)
          · rfl
          · exact absurd hb h3)] at h
        cases h

theorem validateCipherParams_ok {alg : String} {kl : Int} {ivl : Nat}
    (h : validateCipherParams alg kl ivl = .ok ()) :
    ([(16 : Int), 24, 32].contains kl) = true ∧
      ((alg = "AES-GCM" ∧ ivl = 12) ∨ (alg = "AES-CBC" ∧ ivl = 16)) := by
  have hkl := validateCipherParams_ok_keyLength h
  refine ⟨hkl, ?_⟩
  unfold validateCipherParams at h
  rw [if_neg (by rw [hkl]; decide)] at h
  by_cases hg : alg = "AES-GCM"
  · rw [if_pos hg] at h
    by_cases hiv : ivl ≠ 12
    · rw [if_pos hiv] at h
      cases h
    · exact .inl ⟨hg, by omega⟩
  · rw [if_neg hg] at h
    by_cases hcb : alg = "AES-CBC"
    · rw [if_pos hcb] at h
      by_cases hiv : ivl ≠ 16
      · rw [if_pos hiv] at h
        cases h
      · exact .inr ⟨hcb, by omega⟩
    · rw [if_neg hcb] at h
      cases h

/-! ## The claims -/

/-- C6: `pkcs7Pad(data, 16)` returns `data` extended by `padLen` bytes each
equal to `padLen`, where `padLen = 16 - (data.length mod 16)` (a full block
when the length is already a multiple of 16), and the result length is a
positive multiple of 16; `pkcs7Unpad(data, 16)` fails with the
invalid-padding error exactly when the buffer is empty, the last byte is 0,
exceeds 16, or exceeds the buffer length, or some trailing `padLen` byte
differs from `padLen`, and otherwise returns `data` with the last `padLen`
bytes removed. -/
theorem pkcs7_pad_unpad_spec (data : Bytes) :
    (pkcs7Pad data 16 =
        data ++ List.replicate (16 - data.length % 16) (16 - data.length % 16) ∧
      1 ≤ 16 - data.length % 16 ∧
      (pkcs7Pad data 16).length % 16 = 0 ∧ 0 < (pkcs7Pad data 16).length) ∧
    ((pkcs7Unpad data 16 = .error "Invalid padding" ↔
        data.length = 0 ∨ data.getLastD 0 = 0 ∨ 16 < data.getLastD 0 ∨
          data.length < data.getLastD 0 ∨
          ∃ b ∈ data.drop (data.length - data.getLastD 0), b ≠ data.getLastD 0) ∧
      (¬(data.length = 0 ∨ data.getLastD 0 = 0 ∨ 16 < data.getLastD 0 ∨
          data.length < data.getLastD 0 ∨
          ∃ b ∈ data.drop (data.length - data.getLastD 0), b ≠ data.getLastD 0) →
        pkcs7Unpad data 16 = .ok (data.take (data.length - data.getLastD 0)))) := by
  obtain ⟨hp1, hp2⟩ := padLen_bounds data
  refine ⟨⟨pkcs7Pad_eq data, hp1, ?_, ?_⟩, ?_⟩
  · rw [pkcs7Pad_eq]
    simp only [List.length_append, List.length_replicate]
    omega
  · rw [pkcs7Pad_eq]
    simp only [List.length_append, List.length_replicate]
    omega
  · by_cases h0 : data.length = 0
    · rw [pkcs7Unpad, if_pos h0]
      exact ⟨by simp [h0], fun h => absurd (.inl h0) h⟩
    · by_cases h1 : data.getLastD 0 = 0 ∨ data.getLastD 0 > 16 ∨
          data.getLastD 0 > data.length
      · rw [pkcs7Unpad, if_neg h0, if_pos h1]
        refine ⟨⟨fun _ => ?_, fun _ => rfl⟩, fun h => absurd ?_ h⟩
        · rcases h1 with h | h | h
          · exact .inr (.inl h)
          · exact .inr (.inr (.inl h))
          · exact .inr (.inr (.inr (.inl h)))
        · rcases h1 with h | h | h
          · exact .inr (.inl h)
          · exact .inr (.inr (.inl h))
          · exact .inr (.inr (.inr (.inl h)))
      · by_cases h2 : (data.drop (data.length - data.getLastD 0)).all
            (· = data.getLastD 0) = true
        · rw [pkcs7Unpad, if_neg h0, if_neg h1, if_pos h2]
          rw [List.all_eq_true] at h2
          constructor
          · constructor
            · intro h
              cases h
            · intro h
              rcases h with h | h | h | h | ⟨b, hb, hne⟩
              · exact absurd h h0
              · exact absurd (.inl h) h1
              · exact absurd (.inr (.inl h)) h1
              · exact absurd (.inr (.inr h)) h1
              · have := h2 b hb
                simp only [decide_eq_true_eq] at this
                exact absurd this hne
          · intro _
            rfl
        · rw [pkcs7Unpad, if_neg h0, if_neg h1, if_neg h2]
          have hex : ∃ b ∈ data.drop (data.length - data.getLastD 0),
              b ≠ data.getLastD 0 := by
            by_contra hno
            push_neg at hno
            apply h2
            rw [List.all_eq_true]
            intro b hb
            simp only [decide_eq_true_eq]
            exact hno b hb
          exact ⟨⟨fun _ => .inr (.inr (.inr (.inr hex))), fun _ => rfl⟩,
            fun h => absurd (.inr (.inr (.inr (.inr hex)))) h⟩

theorem toHex_field_facts {bs : Bytes} (h : ∀ b ∈ bs, b < 256) :
    (toHex bs).data.all isLowerHexChar = true ∧ (toHex bs).data.length % 2 = 0 := by
  constructor
  · rw [List.all_eq_true]
    intro c hc
    simp [(mem_toHex_facts h c hc).1]
  · rw [toHex_data_length]
    omega

/-- C2: for every input on which `encryptText` succeeds, the returned string
has exactly 3 colon-delimited fields when the (effective) algorithm is
AES-CBC and exactly 4 when it is AES-GCM; every field is a lowercase,
even-length hexadecimal string; the salt field encodes exactly `saltLength`
bytes, the IV field exactly 16 bytes for CBC / 12 for GCM, and the GCM tag
field exactly 16 bytes (32 hex characters). -/
theorem encryptText_envelope_shape (P : SubtleCrypto) (hP : LawfulProvider P)
    (plaintext password : String) (opts : EncOpts) (out : String)
    (h : (encryptText P plaintext password opts).1 = .ok out) :
    (splitColon out).length =
      (if jsOrStr opts.algorithm DEFAULTS.algorithm = "AES-GCM" then 4 else 3) ∧
    (∀ f ∈ splitColon out, f.data.all isLowerHexChar = true ∧
      f.data.length % 2 = 0) ∧
    ((splitColon out).getD 0 "").data.length =
      2 * jsOrNat opts.saltLength DEFAULTS.saltLength ∧
    ((splitColon out).getD 1 "").data.length =
      2 * (if jsOrStr opts.algorithm DEFAULTS.algorithm = "AES-GCM" then 12 else 16) ∧
    (jsOrStr opts.algorithm DEFAULTS.algorithm = "AES-GCM" →
      ((splitColon out).getD 3 "").data.length = 32) := by
  simp only [encryptText] at h
  split at h
  · simp at h
  · rename_i u hval
    cases u
    split at h
    · simp at h
    · split at h
      · simp at h
      · split at h
        · simp at h
        · rename_i salt hsalt
          split at h
          · simp at h
          · rename_i iv hiv
            split at h
            · simp at h
            · rename_i key klog hkey
              obtain ⟨hsl, rfl⟩ := randomBytes_ok hsalt
              obtain ⟨hil, rfl⟩ := randomBytes_ok hiv
              obtain ⟨hklc, halgiv⟩ := validateCipherParams_ok hval
              split at h
              · rename_i halg
                split at h
                · simp at h
                · rename_i hlen16
                  simp only at h
                  obtain rfl := (Except.ok.inj h).symm
                  have hivl : jsOrNat opts.ivLength DEFAULTS.ivLength = 12 := by
                    rcases halgiv with ⟨-, hl⟩ | ⟨hcb, -⟩
                    · exact hl
                    · exact absurd (halg.symm.trans hcb) (by decide)
                  have hsb : ∀ b ∈ P.getRandomValues
                      (jsOrNat opts.saltLength DEFAULTS.saltLength), b < 256 :=
                    hP.rand_lt _
                  have hib : ∀ b ∈ P.getRandomValues
                      (jsOrNat opts.ivLength DEFAULTS.ivLength), b < 256 :=
                    hP.rand_lt _
                  have hallb : ∀ b ∈ subtleGcmEncrypt P key
                      (P.getRandomValues (jsOrNat opts.ivLength DEFAULTS.ivLength))
                      (utf8Encode plaintext), b < 256 := by
                    intro b hb
                    rcases List.mem_append.mp hb with hb | hb
                    · exact hP.gcm_lt _ _ _ b hb
                    · exact hP.tag_lt _ _ _ b hb
                  have hctb : ∀ b ∈ (subtleGcmEncrypt P key
                      (P.getRandomValues (jsOrNat opts.ivLength DEFAULTS.ivLength))
                      (utf8Encode plaintext)).take ((subtleGcmEncrypt P key
                      (P.getRandomValues (jsOrNat opts.ivLength DEFAULTS.ivLength))
                      (utf8Encode plaintext)).length - 16), b < 256 :=
                    fun b hb => hallb b (List.take_subset _ _ hb)
                  have htgb : ∀ b ∈ (subtleGcmEncrypt P key
                      (P.getRandomValues (jsOrNat opts.ivLength DEFAULTS.ivLength))
                      (utf8Encode plaintext)).drop ((subtleGcmEncrypt P key
                      (P.getRandomValues (jsOrNat opts.ivLength DEFAULTS.ivLength))
                      (utf8Encode plaintext)).length - 16), b < 256 :=
                    fun b hb => hallb b (List.drop_subset _ _ hb)
                  have hsplit := splitColon_four (colon_not_mem_toHex hsb)
                    (colon_not_mem_toHex hib) (colon_not_mem_toHex hctb)
                    (colon_not_mem_toHex htgb)
                  rw [hsplit]
                  refine ⟨by rw [if_pos halg]; rfl, ?_, ?_, ?_, ?_⟩
                  · intro f hf
                    rcases List.mem_cons.mp hf with rfl | hf
                    · exact toHex_field_facts hsb
                    · rcases List.mem_cons.mp hf with rfl | hf
                      · exact toHex_field_facts hib
                      · rcases List.mem_cons.mp hf with rfl | hf
                        · exact toHex_field_facts hctb
                        · rcases List.mem_cons.mp hf with rfl | hf
                          · exact toHex_field_facts htgb
                          · cases hf
                  · simp only [List.getD_cons_zero]
                    rw [toHex_data_length, hP.rand_length]
                  · simp only [List.getD_cons_succ, List.getD_cons_zero]
                    rw [toHex_data_length, hP.rand_length, if_pos halg, hivl]
                  · intro _
                    simp only [List.getD_cons_succ, List.getD_cons_zero]
                    rw [toHex_data_length, List.length_drop]
                    omega
              · rename_i halg
                simp only at h
                obtain rfl := (Except.ok.inj h).symm
                have hivl : jsOrNat opts.ivLength DEFAULTS.ivLength = 16 := by
                  rcases halgiv with ⟨hg, -⟩ | ⟨-, hl⟩
                  · exact absurd hg halg
                  · exact hl
                have hsb : ∀ b ∈ P.getRandomValues
                    (jsOrNat opts.saltLength DEFAULTS.saltLength), b < 256 :=
                  hP.rand_lt _
                have hib : ∀ b ∈ P.getRandomValues
                    (jsOrNat opts.ivLength DEFAULTS.ivLength), b < 256 :=
                  hP.rand_lt _
                have hctb : ∀ b ∈ subtleCbcEncrypt P key
                    (P.getRandomValues (jsOrNat opts.ivLength DEFAULTS.ivLength))
                    (pkcs7Pad (utf8Encode plaintext) 16), b < 256 :=
                  fun b hb => hP.cbc_lt _ _ _ b hb
                have hsplit := splitColon_three (colon_not_mem_toHex hsb)
                  (colon_not_mem_toHex hib) (colon_not_mem_toHex hctb)
                rw [hsplit]
                refine ⟨by rw [if_neg halg]; rfl, ?_, ?_, ?_, fun hg => absurd hg halg⟩
                · intro f hf
                  rcases List.mem_cons.mp hf with rfl | hf
                  · exact toHex_field_facts hsb
                  · rcases List.mem_cons.mp hf with rfl | hf
                    · exact toHex_field_facts hib
                    · rcases List.mem_cons.mp hf with rfl | hf
                      · exact toHex_field_facts hctb
                      · cases hf
                · simp only [List.getD_cons_zero]
                  rw [toHex_data_length, hP.rand_length]
                · simp only [List.getD_cons_succ, List.getD_cons_zero]
                  rw [toHex_data_length, hP.rand_length, if_neg halg, hivl]

/-- Witness for C2: the envelope shape at a concrete AES-GCM encryption
under the concrete provider. -/
theorem encryptText_envelope_shape_witness :
    (splitColon c2env).length =
      (if jsOrStr (some "AES-GCM") DEFAULTS.algorithm = "AES-GCM" then 4 else 3) ∧
    (∀ f ∈ splitColon c2env, f.data.all isLowerHexChar = true ∧
      f.data.length % 2 = 0) ∧
    ((splitColon c2env).getD 0 "").data.length =
      2 * jsOrNat none DEFAULTS.saltLength ∧
    ((splitColon c2env).getD 1 "").data.length =
      2 * (if jsOrStr (some "AES-GCM") DEFAULTS.algorithm = "AES-GCM" then 12 else 16) ∧
    (jsOrStr (some "AES-GCM") DEFAULTS.algorithm = "AES-GCM" →
      ((splitColon c2env).getD 3 "").data.length = 32) :=
  encryptText_envelope_shape toyP toyP_lawful "hi" "pw"
    {algorithm := some "AES-GCM", ivLength := some 12} c2env rfl

/-- C7 (counterexample): `encryptText` accepts a salt length of 8 bytes
(below the spec's 16) together with 5 PBKDF2 iterations (below the spec's
10,000): the call succeeds, so the claimed rejection does not happen. -/
theorem encryptText_accepts_small_salt_and_iterations :
    (encryptText toyP "hello" "pw"
      {saltLength := some 8, iterations := some 5}).1.isOk = true := rfl

/-- C7 (amended): `encryptText` validates only the key length (must be 16,
24 or 32 bytes after defaulting) and the IV length fixed by the algorithm,
each failing with the corresponding validation error, with an empty buffer
log and for every provider — i.e. before any cryptographic operation;
`saltLength` and `iterations` are not range-checked: any non-zero salt
length and positive iteration count are accepted (the 16–64 and
10,000–1,000,000 bounds live in the UI layer, not in `encryptText`). -/
theorem encryptText_param_validation (P : SubtleCrypto)
    (plaintext password : String) (opts : EncOpts) :
    (¬(([(16 : Int), 24, 32].contains (jsOrInt opts.keyLength DEFAULTS.keyLength)) = true) →
      encryptText P plaintext password opts =
        (.error "AES requires a 16, 24, or 32-byte key length", [])) ∧
    ((([(16 : Int), 24, 32].contains (jsOrInt opts.keyLength DEFAULTS.keyLength)) = true) →
      jsOrStr opts.algorithm DEFAULTS.algorithm = "AES-GCM" →
      jsOrNat opts.ivLength DEFAULTS.ivLength ≠ 12 →
      encryptText P plaintext password opts =
        (.error "AES-GCM requires a 12-byte IV length", [])) ∧
    ((([(16 : Int), 24, 32].contains (jsOrInt opts.keyLength DEFAULTS.keyLength)) = true) →
      jsOrStr opts.algorithm DEFAULTS.algorithm = "AES-CBC" →
      jsOrNat opts.ivLength DEFAULTS.ivLength ≠ 16 →
      encryptText P plaintext password opts =
        (.error "AES-CBC requires a 16-byte IV length", [])) ∧
    (jsOrStr opts.algorithm DEFAULTS.algorithm = "AES-CBC" →
      jsOrNat opts.ivLength DEFAULTS.ivLength = 16 →
      (([(16 : Int), 24, 32].contains (jsOrInt opts.keyLength DEFAULTS.keyLength)) = true) →
      jsTrim plaintext ≠ "" → jsTrim password ≠ "" →
      jsOrNat opts.saltLength DEFAULTS.saltLength ≠ 0 →
      0 < jsOrInt opts.iterations DEFAULTS.iterations →
      (encryptText P plaintext password opts).1.isOk = true) := by
  refine ⟨?_, ?_, ?_, ?_⟩
  · intro hkl
    have hv : validateCipherParams (jsOrStr opts.algorithm DEFAULTS.algorithm)
        (jsOrInt opts.keyLength DEFAULTS.keyLength)
        (jsOrNat opts.ivLength DEFAULTS.ivLength) =
        .error "AES requires a 16, 24, or 32-byte key length" := by
      unfold validateCipherParams
      rw [if_pos (by
        cases hb : ([(16 : Int), 24, 32].contains
            (jsOrInt opts.keyLength DEFAULTS.keyLength))
        · rfl
        · exact absurd hb hkl)]
    simp only [encryptText, hv]
  · intro hkl halg hiv
    have hv : validateCipherParams (jsOrStr opts.algorithm DEFAULTS.algorithm)
        (jsOrInt opts.keyLength DEFAULTS.keyLength)
        (jsOrNat opts.ivLength DEFAULTS.ivLength) =
        .error "AES-GCM requires a 12-byte IV length" := by
      unfold validateCipherParams
      rw [if_neg (by rw [hkl]; decide), if_pos halg, if_pos hiv]
    simp only [encryptText, hv]
  · intro hkl halg hiv
    have hv : validateCipherParams (jsOrStr opts.algorithm DEFAULTS.algorithm)
        (jsOrInt opts.keyLength DEFAULTS.keyLength)
        (jsOrNat opts.ivLength DEFAULTS.ivLength) =
        .error "AES-CBC requires a 16-byte IV length" := by
      unfold validateCipherParams
      rw [if_neg (by rw [hkl]; decide), if_neg (by rw [halg]; decide),
        if_pos halg, if_pos hiv]
    simp only [encryptText, hv]
  · intro halg hiv hkl hpt hpw hsl hit
    rw [encryptText_cbc_fst P plaintext password opts halg (by
      unfold validateCipherParams
      rw [if_neg (by rw [hkl]; decide), if_neg (by decide), if_pos rfl,
        if_neg (by omega)]) hpt hpw hsl (by omega) hit]
    rfl

set_option maxHeartbeats 2000000 in
theorem decryptText_parsed_cbc_vErr (P : SubtleCrypto) {salt iv ct : Bytes}
    (password : String) (opts : DecOpts) {e : String}
    (hs : ∀ b ∈ salt, b < 256) (hi : ∀ b ∈ iv, b < 256) (hc : ∀ b ∈ ct, b < 256)
    (hpw : jsTrim password ≠ "")
    (hval : validateCipherParams "AES-CBC" ((keyOrderOf opts.keyLength).headD 0)
      iv.length = .error e) :
    decryptText P (toHex salt ++ ":" ++ toHex iv ++ ":" ++ toHex ct) password opts =
      (.error e, [("salt", salt), ("iv", iv)]) := by
  have henv : splitColon (toHex salt ++ ":" ++ toHex iv ++ ":" ++ toHex ct) =
      [toHex salt, toHex iv, toHex ct] :=
    splitColon_three (colon_not_mem_toHex hs) (colon_not_mem_toHex hi)
      (colon_not_mem_toHex hc)
  have hne : jsTrim (toHex salt ++ ":" ++ toHex iv ++ ":" ++ toHex ct) ≠ "" :=
    jsTrim_ne_empty (c := ':') (by simp [String.data_append]) (by decide)
  simp only [decryptText, if_neg hne, if_neg hpw, henv, List.length_cons,
    List.length_nil, List.map_cons, List.map_nil, jsTrim_toHex hs,
    jsTrim_toHex hi, jsTrim_toHex hc, List.getD, List.getElem?_cons_zero,
    List.getElem?_cons_succ, Option.getD_some, fromHex_toHex hs, fromHex_toHex hi,
    fromHex_toHex hc]
  rw [if_neg (by omega)]
  norm_num [List.get?_cons_zero, List.get?_cons_succ, Option.getD_some,
    fromHex_toHex hs, fromHex_toHex hi, fromHex_toHex hc]
  rw [List.headD_eq_head?_getD] at hval
  rw [hval]

set_option maxHeartbeats 2000000 in
theorem decryptText_parsed_gcm_vErr (P : SubtleCrypto) {salt iv ct tag : Bytes}
    (password : String) (opts : DecOpts) {e : String}
    (hs : ∀ b ∈ salt, b < 256) (hi : ∀ b ∈ iv, b < 256) (hc : ∀ b ∈ ct, b < 256)
    (ht : ∀ b ∈ tag, b < 256) (hpw : jsTrim password ≠ "")
    (hval : validateCipherParams "AES-GCM" ((keyOrderOf opts.keyLength).headD 0)
      iv.length = .error e) :
    decryptText P
      (toHex salt ++ ":" ++ toHex iv ++ ":" ++ toHex ct ++ ":" ++ toHex tag)
      password opts =
      (.error e, [("salt", salt), ("iv", iv)]) := by
  have henv : splitColon
      (toHex salt ++ ":" ++ toHex iv ++ ":" ++ toHex ct ++ ":" ++ toHex tag) =
      [toHex salt, toHex iv, toHex ct, toHex tag] :=
    splitColon_four (colon_not_mem_toHex hs) (colon_not_mem_toHex hi)
      (colon_not_mem_toHex hc) (colon_not_mem_toHex ht)
  have hne : jsTrim
      (toHex salt ++ ":" ++ toHex iv ++ ":" ++ toHex ct ++ ":" ++ toHex tag) ≠ "" :=
    jsTrim_ne_empty (c := ':') (by simp [String.data_append]) (by decide)
  simp only [decryptText, if_neg hne, if_neg hpw, henv, List.length_cons,
    List.length_nil, List.map_cons, List.map_nil, jsTrim_toHex hs,
    jsTrim_toHex hi, jsTrim_toHex hc, jsTrim_toHex ht, List.getD,
    List.getElem?_cons_zero, List.getElem?_cons_succ, Option.getD_some,
    fromHex_toHex hs, fromHex_toHex hi, fromHex_toHex hc, fromHex_toHex ht]
  rw [if_neg (by omega)]
  norm_num [List.get?_cons_zero, List.get?_cons_succ, Option.getD_some,
    fromHex_toHex hs, fromHex_toHex hi, fromHex_toHex hc, fromHex_toHex ht]
  rw [List.headD_eq_head?_getD] at hval
  rw [hval]

/-- C10: when `opts.keyLength` supplies an integer hint outside {16,24,32},
`decryptText` puts the hint first in the candidate order and validates it
before the loop, so the call fails immediately with the key-length
parameter error: the full result, for every provider, is that error with
only the parsed salt and IV in the buffer log — no key is derived and no
candidate is attempted, even though a valid key length might have
decrypted the envelope. -/
theorem decryptText_invalid_hint_fails_fast (P : SubtleCrypto)
    {salt iv ct tag : Bytes} (password : String) (opts : DecOpts) (h : Int)
    (hs : ∀ b ∈ salt, b < 256) (hi : ∀ b ∈ iv, b < 256) (hc : ∀ b ∈ ct, b < 256)
    (ht : ∀ b ∈ tag, b < 256) (hpw : jsTrim password ≠ "")
    (hhint : opts.keyLength = some h)
    (hbad : ¬(([(16 : Int), 24, 32].contains h) = true)) :
    decryptText P (toHex salt ++ ":" ++ toHex iv ++ ":" ++ toHex ct) password opts =
      (.error "AES requires a 16, 24, or 32-byte key length",
        [("salt", salt), ("iv", iv)]) ∧
    decryptText P
      (toHex salt ++ ":" ++ toHex iv ++ ":" ++ toHex ct ++ ":" ++ toHex tag)
      password opts =
      (.error "AES requires a 16, 24, or 32-byte key length",
        [("salt", salt), ("iv", iv)]) := by
  have hhead : (keyOrderOf opts.keyLength).headD 0 = h := by
    rw [hhint]
    rfl
  have hcontains : ([(16 : Int), 24, 32].contains
      ((keyOrderOf opts.keyLength).headD 0)) = false := by
    rw [hhead]
    cases hb : ([(16 : Int), 24, 32].contains h)
    · rfl
    · exact absurd hb hbad
  constructor
  · exact decryptText_parsed_cbc_vErr P password opts hs hi hc hpw (by
      unfold validateCipherParams
      rw [if_pos (by rw [hcontains]; rfl)])
  · exact decryptText_parsed_gcm_vErr P password opts hs hi hc ht hpw (by
      unfold validateCipherParams
      rw [if_pos (by rw [hcontains]; rfl)])

/-- Witness for C10: a hint of 33 makes decryption of both a 3-field and a
4-field envelope fail immediately with the key-length error. -/
theorem decryptText_invalid_hint_fails_fast_witness :
    decryptText toyP
        (toHex [1, 2] ++ ":" ++ toHex (List.replicate 16 3) ++ ":" ++ toHex [4, 5])
        "pw" {keyLength := some 33} =
      (.error "AES requires a 16, 24, or 32-byte key length",
        [("salt", [1, 2]), ("iv", List.replicate 16 3)]) ∧
    decryptText toyP
        (toHex [1, 2] ++ ":" ++ toHex (List.replicate 16 3) ++ ":" ++ toHex [4, 5] ++
          ":" ++ toHex (List.replicate 16 0))
        "pw" {keyLength := some 33} =
      (.error "AES requires a 16, 24, or 32-byte key length",
        [("salt", [1, 2]), ("iv", List.replicate 16 3)]) :=
  decryptText_invalid_hint_fails_fast toyP "pw" {keyLength := some 33} 33
    (by decide) (by decide) (by decide) (by decide) (by decide) rfl (by decide)

/-- C8 (counterexample): on the envelope "aabb:cc:zz" the ciphertext field
"zz" is not valid hexadecimal, yet `decryptText` fails with the IV-length
parameter error — the pre-loop parameter validation runs before the
ciphertext field is hex-decoded, so the failure is not a malformed-envelope
error as the claim requires. -/
theorem decryptText_bad_hex_preempted_by_param_error :
    (decryptText toyP "aabb:cc:zz" "pw" {}).1 =
      .error "AES-CBC requires a 16-byte IV length" := rfl

/-- C8 (amended): `decryptText` rejects the input before any key-length
candidate is attempted (no key derivation, result independent of the
provider) whenever the field count is not 3 or 4 (with the invalid-format
error), or the salt or IV field is not valid even-length hex (with that
hex error), or — provided the pre-loop validation of the first candidate
key length against the IV length passes — the ciphertext or tag field is
not valid hex (with that hex error); when that pre-loop validation fails,
its parameter error preempts the ciphertext/tag hex error. -/
theorem decryptText_malformed_rejected (P : SubtleCrypto)
    (enc password : String) (opts : DecOpts)
    (henc : jsTrim enc ≠ "") (hpw : jsTrim password ≠ "") :
    ((splitColon enc).length ≠ 3 → (splitColon enc).length ≠ 4 →
      decryptText P enc password opts =
        (.error "Invalid format. Expected salt:iv:ciphertext or salt:iv:ciphertext:tag",
          [])) ∧
    (∀ e : String, ((splitColon enc).length = 3 ∨ (splitColon enc).length = 4) →
      fromHex (((splitColon enc).map jsTrim).getD 0 "") = .error e →
      decryptText P enc password opts = (.error e, [])) ∧
    (∀ (e : String) (saltv : Bytes),
      ((splitColon enc).length = 3 ∨ (splitColon enc).length = 4) →
      fromHex (((splitColon enc).map jsTrim).getD 0 "") = .ok saltv →
      fromHex (((splitColon enc).map jsTrim).getD 1 "") = .error e →
      decryptText P enc password opts = (.error e, [("salt", saltv)])) ∧
    (∀ (e : String) (saltv ivv : Bytes),
      ((splitColon enc).length = 3 ∨ (splitColon enc).length = 4) →
      fromHex (((splitColon enc).map jsTrim).getD 0 "") = .ok saltv →
      fromHex (((splitColon enc).map jsTrim).getD 1 "") = .ok ivv →
      validateCipherParams
        (if (splitColon enc).length = 4 then "AES-GCM" else "AES-CBC")
        ((keyOrderOf opts.keyLength).headD 0) ivv.length = .ok () →
      fromHex (((splitColon enc).map jsTrim).getD 2 "") = .error e →
      decryptText P enc password opts =
        (.error e, [("salt", saltv), ("iv", ivv)])) ∧
    (∀ (e : String) (saltv ivv ctv : Bytes),
      (splitColon enc).length = 4 →
      fromHex (((splitColon enc).map jsTrim).getD 0 "") = .ok saltv →
      fromHex (((splitColon enc).map jsTrim).getD 1 "") = .ok ivv →
      validateCipherParams "AES-GCM"
        ((keyOrderOf opts.keyLength).headD 0) ivv.length = .ok () →
      fromHex (((splitColon enc).map jsTrim).getD 2 "") = .ok ctv →
      fromHex (((splitColon enc).map jsTrim).getD 3 "") = .error e →
      decryptText P enc password opts =
        (.error e, [("salt", saltv), ("iv", ivv), ("ciphertext", ctv)])) := by
  refine ⟨?_, ?_, ?_, ?_, ?_⟩
  · intro h3 h4
    simp only [decryptText, if_neg henc, if_neg hpw]
    rw [if_pos ⟨h3, h4⟩]
  · intro e hcount hsalt
    simp only [decryptText, if_neg henc, if_neg hpw, hsalt]
    rw [if_neg (by omega)]
  · intro e saltv hcount hsalt hiv
    simp only [decryptText, if_neg henc, if_neg hpw, hsalt, hiv]
    rw [if_neg (by omega)]
  · intro e saltv ivv hcount hsalt hiv hval hct
    simp only [decryptText, if_neg henc, if_neg hpw, hsalt, hiv, hval, hct]
    rw [if_neg (by omega)]
  · intro e saltv ivv ctv hcount hsalt hiv hval hct htag
    simp only [decryptText, if_neg henc, if_neg hpw, hsalt, hiv, hct, htag,
      hcount, if_true, hval]
    rw [if_neg (by omega)]
    rfl

/-- Witness for C8: a two-field input is rejected with the invalid-format
error, outright and with an empty buffer log. -/
theorem decryptText_malformed_rejected_witness :
    decryptText toyP "ab:cd" "pw" {} =
      (.error "Invalid format. Expected salt:iv:ciphertext or salt:iv:ciphertext:tag",
        []) :=
  (decryptText_malformed_rejected toyP "ab:cd" "pw" {} (by decide) (by decide)).1
    (by decide) (by decide)

theorem deriveKeyPBKDF2_fst_ok {P : SubtleCrypto} {pw : String} {salt : Bytes}
    {it kl : Int} (hpw : jsTrim pw ≠ "") (hit : 0 < it)
    (hkl : ([(16 : Int), 24, 32].contains kl) = true) :
    deriveKeyPBKDF2 P pw salt it kl =
      (.ok (P.pbkdf2 pw salt it.toNat kl.toNat),
        [("keyMaterial",
          List.replicate (P.pbkdf2 pw salt it.toNat kl.toNat).length 0)]) := by
  unfold deriveKeyPBKDF2
  rw [if_neg hpw, if_neg (by omega), if_neg (by rw [hkl]; decide)]

/-- C3: for a well-formed envelope (built from salt, IV, ciphertext and,
for the 4-field form, a tag) and any password, when every candidate key
length fails — its validation, key derivation or the mode-specific
decryption is rejected — `decryptText` fails with one fixed generic
message, "Decryption failed: wrong password or mismatched parameters".
The message is a constant of the statement, the same for wrong password,
corrupted ciphertext or wrong key length, so the error distinguishes none
of these causes. -/
theorem decryptText_generic_failure (P : SubtleCrypto) {salt iv ct : Bytes}
    {tagOpt : Option Bytes} (password : String) (opts : DecOpts)
    (hs : ∀ b ∈ salt, b < 256) (hi : ∀ b ∈ iv, b < 256) (hc : ∀ b ∈ ct, b < 256)
    (ht : ∀ t, tagOpt = some t → ∀ b ∈ t, b < 256)
    (hpw : jsTrim password ≠ "")
    (hval : validateCipherParams
      (match tagOpt with | some _ => "AES-GCM" | none => "AES-CBC")
      ((keyOrderOf opts.keyLength).headD 0) iv.length = .ok ())
    (hfail : ∀ k ∈ keyOrderOf opts.keyLength,
      candidateFails
        ⟨P, (match tagOpt with | some _ => "AES-GCM" | none => "AES-CBC"),
          password, salt, iv,
          (match opts.iterations with | some i => i | none => DEFAULTS.iterations),
          ct, tagOpt⟩ k = true) :
    (decryptText P
      (toHex salt ++ ":" ++ toHex iv ++ ":" ++ toHex ct ++
        (match tagOpt with | some t => ":" ++ toHex t | none => ""))
      password opts).1 =
      .error "Decryption failed: wrong password or mismatched parameters" := by
  cases tagOpt with
  | none =>
    rw [show toHex salt ++ ":" ++ toHex iv ++ ":" ++ toHex ct ++ "" =
        toHex salt ++ ":" ++ toHex iv ++ ":" ++ toHex ct from by
      rw [String.append_empty]]
    rw [decryptText_parsed_cbc P password opts hs hi hc hpw hval]
    exact decryptCandidates_fst_all_fail _ hfail
  | some t =>
    rw [show toHex salt ++ ":" ++ toHex iv ++ ":" ++ toHex ct ++
        (":" ++ toHex t) =
        toHex salt ++ ":" ++ toHex iv ++ ":" ++ toHex ct ++ ":" ++ toHex t from by
      simp [String.append_assoc]]
    rw [decryptText_parsed_gcm P password opts hs hi hc (ht t rfl) hpw hval]
    exact decryptCandidates_fst_all_fail _ hfail

set_option maxHeartbeats 4000000 in
/-- Witness for C3: decrypting a concrete 4-field envelope with a password
under which every candidate fails yields exactly the generic message. -/
theorem decryptText_generic_failure_witness :
    (decryptText toyP
      (toHex [1, 2] ++ ":" ++ toHex (List.replicate 12 7) ++ ":" ++
        toHex [5, 6, 7] ++ (":" ++ toHex (List.replicate 16 0)))
      "pw" {}).1 =
      .error "Decryption failed: wrong password or mismatched parameters" :=
  @decryptText_generic_failure toyP [1, 2] (List.replicate 12 7) [5, 6, 7]
    (some (List.replicate 16 0)) "pw" {}
    (by decide) (by decide) (by decide) (by intro t ht; cases ht; decide)
    (by decide) rfl (by decide)

/-! ## Further helper lemmas -/

theorem pkcs7Pad_lt {data : Bytes} (h : ∀ b ∈ data, b < 256) :
    ∀ b ∈ pkcs7Pad data 16, b < 256 := by
  intro b hb
  rw [pkcs7Pad_eq] at hb
  rcases List.mem_append.mp hb with h1 | h1
  · exact h b h1
  · have h2 := List.eq_of_mem_replicate h1
    have h3 := padLen_bounds data
    omega

theorem wipeAll_entries_strong {log : BufLog} {nms : List String}
    {e : String × Bytes} (he : e ∈ wipeAll log nms) :
    (e.1 ∈ nms ∧ e.2.all (· = 0) = true) ∨ (e.1 ∉ nms ∧ e ∈ log) := by
  induction nms generalizing log with
  | nil => exact .inr ⟨by simp, he⟩
  | cons nm nms ih =>
    rw [wipeAll_cons] at he
    rcases ih he with ⟨h1, h2⟩ | ⟨h1, h2⟩
    · exact .inl ⟨by simp [h1], h2⟩
    · rcases wipeBuf_entries h2 with ⟨h3, h4⟩ | ⟨h3, h4⟩
      · exact .inl ⟨by simp [h3], h4⟩
      · refine .inr ⟨?_, h4⟩
        simp only [List.mem_cons, not_or]
        exact ⟨h3, h1⟩

theorem deriveKeyPBKDF2_log_entries (P : SubtleCrypto) (pw : String)
    (salt : Bytes) (it kl : Int) :
    ∀ e ∈ (deriveKeyPBKDF2 P pw salt it kl).2,
      e.1 = "keyMaterial" ∧ e.2.all (· = 0) = true := by
  intro e he
  unfold deriveKeyPBKDF2 at he
  by_cases h1 : jsTrim pw = ""
  · rw [if_pos h1] at he
    simp at he
  · rw [if_neg h1] at he
    by_cases h2 : it ≤ 0
    · rw [if_pos h2] at he
      simp at he
    · rw [if_neg h2] at he
      by_cases h3 : (!([(16 : Int), 24, 32].contains kl)) = true
      · rw [if_pos h3] at he
        simp at he
      · rw [if_neg h3] at he
        simp only [List.mem_cons, List.not_mem_nil, or_false] at he
        subst he
        refine ⟨rfl, ?_⟩
        rw [List.all_eq_true]
        intro b hb
        simp [List.eq_of_mem_replicate hb]

theorem subtleCbcDecrypt_subtleCbcEncrypt {P : SubtleCrypto}
    (hP : LawfulProvider P)
    (hrt : ∀ key iv d, (∀ b ∈ d, b < 256) →
      P.cbcRawDec key iv (P.cbcRawEnc key iv d) = d)
    (key iv : Bytes) {data : Bytes} (hd : ∀ b ∈ data, b < 256) :
    subtleCbcDecrypt P key iv (subtleCbcEncrypt P key iv data) = some data := by
  have hb := padLen_bounds data
  have hlen : (P.cbcRawEnc key iv (pkcs7Pad data 16)).length =
      data.length + (16 - data.length % 16) := by
    rw [hP.cbc_length, pkcs7Pad_eq]
    simp
  unfold subtleCbcEncrypt subtleCbcDecrypt
  rw [if_neg (by
    simp only [hlen, Bool.or_eq_true, decide_eq_true_eq]
    omega)]
  rw [hrt key iv _ (pkcs7Pad_lt hd)]
  simp only [pkcs7Unpad_pkcs7Pad]

theorem decryptCandidates_log_entries (ctx : DecCtx) (ks : List Int) :
    ∀ log : BufLog, (∀ x ∈ log, decryptResidue x) →
      ∀ e ∈ (decryptCandidates ctx ks log).2, decryptResidue e := by
  induction ks with
  | nil =>
    intro log hlog e he
    simp only [decryptCandidates] at he
    rcases wipeAll_entries_strong he with ⟨-, hz⟩ | ⟨-, hmem⟩
    · exact Or.inr (Or.inr (Or.inr (Or.inr (Or.inr hz))))
    · exact hlog e hmem
  | cons k ks ih =>
    intro log hlog e he
    simp only [decryptCandidates] at he
    cases hv : validateCipherParams ctx.algorithm k ctx.iv.length with
    | error e1 =>
      simp only [hv] at he
      exact ih log hlog e he
    | ok u =>
      simp only [hv] at he
      rcases hdp : deriveKeyPBKDF2 ctx.P ctx.password ctx.salt ctx.iterations k
        with ⟨res, klog⟩
      simp only [hdp] at he
      have hklog : ∀ x ∈ klog, decryptResidue x := by
        intro x hx
        have h5 := deriveKeyPBKDF2_log_entries ctx.P ctx.password ctx.salt
          ctx.iterations k x (by rw [hdp]; exact hx)
        exact Or.inr (Or.inr (Or.inr (Or.inr (Or.inr h5.2))))
      have hlog1 : ∀ x ∈ log ++ klog, decryptResidue x := by
        intro x hx
        rcases List.mem_append.mp hx with h | h
        · exact hlog x h
        · exact hklog x h
      cases res with
      | error e2 =>
        exact ih _ hlog1 e he
      | ok key =>
        by_cases halg : ctx.algorithm = "AES-GCM"
        · simp only [halg, if_pos rfl] at he
          cases hg : subtleGcmDecrypt ctx.P key ctx.iv
              (ctx.ciphertext ++ (match ctx.tagOpt with | some t => t | none => []))
              with
          | some pt =>
            simp only [hg] at he
            rcases wipeAll_entries_strong he with ⟨-, hz⟩ | ⟨hnin, hmem⟩
            · exact Or.inr (Or.inr (Or.inr (Or.inr (Or.inr hz))))
            · rcases List.mem_append.mp hmem with h6 | h6
              · rcases List.mem_append.mp h6 with h7 | h7
                · exact hlog1 e h7
                · simp only [List.mem_cons, List.not_mem_nil, or_false] at h7
                  subst h7
                  exact Or.inr (Or.inr (Or.inr (Or.inr (Or.inl ⟨toString k, rfl⟩))))
              · simp only [List.mem_cons, List.not_mem_nil, or_false] at h6
                subst h6
                exact absurd (by simp) hnin
          | none =>
            simp only [hg] at he
            refine ih _ ?_ e he
            intro x hx
            rcases List.mem_append.mp hx with h6 | h6
            · exact hlog1 x h6
            · simp only [List.mem_cons, List.not_mem_nil, or_false] at h6
              subst h6
              exact Or.inr (Or.inr (Or.inr (Or.inr (Or.inl ⟨toString k, rfl⟩))))
        · simp only [if_neg halg] at he
          cases hcd : subtleCbcDecrypt ctx.P key ctx.iv ctx.ciphertext with
          | some pt =>
            simp only [hcd] at he
            rcases wipeAll_entries_strong he with ⟨-, hz⟩ | ⟨hnin, hmem⟩
            · exact Or.inr (Or.inr (Or.inr (Or.inr (Or.inr hz))))
            · rcases List.mem_append.mp hmem with h6 | h6
              · exact hlog1 e h6
              · simp only [List.mem_cons, List.not_mem_nil, or_false] at h6
                subst h6
                exact absurd (by simp) hnin
          | none =>
            simp only [hcd] at he
            exact ih _ hlog1 e he

theorem keyOrderOf_eq_cons (hint : Option Int) :
    keyOrderOf hint = (keyOrderOf hint).headD 0 :: (keyOrderOf hint).tail := by
  cases hint <;> rfl

/-- C4: for well-formed 4-field envelopes `decryptText` infers AES-GCM from
the field count, orders the candidate key lengths hint-first (`keyOrderOf`),
and returns the first succeeding candidate's plaintext: with no hint the
order is 32, 24, 16, an envelope whose key was derived with length 24 is
decrypted after candidate 32 fails, and one with length 16 after candidates
32 and 24 both fail. -/
theorem decryptText_key_autodiscovery (P : SubtleCrypto)
    (salt iv ct24 tag24 key24 pt24 ct16 tag16 key16 pt16 : Bytes)
    (password : String) (opts : DecOpts) (hhint : opts.keyLength = none)
    (hs : ∀ b ∈ salt, b < 256) (hi : ∀ b ∈ iv, b < 256)
    (hc24 : ∀ b ∈ ct24, b < 256) (ht24 : ∀ b ∈ tag24, b < 256)
    (hc16 : ∀ b ∈ ct16, b < 256) (ht16 : ∀ b ∈ tag16, b < 256)
    (hpw : jsTrim password ≠ "") (hiv : iv.length = 12)
    (hf24 : candidateFails ⟨P, "AES-GCM", password, salt, iv,
      (match opts.iterations with | some i => i | none => DEFAULTS.iterations),
      ct24, some tag24⟩ 32 = true)
    (hd24 : (deriveKeyPBKDF2 P password salt
      (match opts.iterations with | some i => i | none => DEFAULTS.iterations)
      24).1 = .ok key24)
    (hg24 : subtleGcmDecrypt P key24 iv (ct24 ++ tag24) = some pt24)
    (hf16a : candidateFails ⟨P, "AES-GCM", password, salt, iv,
      (match opts.iterations with | some i => i | none => DEFAULTS.iterations),
      ct16, some tag16⟩ 32 = true)
    (hf16b : candidateFails ⟨P, "AES-GCM", password, salt, iv,
      (match opts.iterations with | some i => i | none => DEFAULTS.iterations),
      ct16, some tag16⟩ 24 = true)
    (hd16 : (deriveKeyPBKDF2 P password salt
      (match opts.iterations with | some i => i | none => DEFAULTS.iterations)
      16).1 = .ok key16)
    (hg16 : subtleGcmDecrypt P key16 iv (ct16 ++ tag16) = some pt16) :
    keyOrderOf none = [32, 24, 16] ∧
    (∀ h : Int, keyOrderOf (some h) =
      h :: ([32, 24, 16].filter fun k => k ≠ h)) ∧
    (decryptText P (toHex salt ++ ":" ++ toHex iv ++ ":" ++ toHex ct24 ++ ":" ++
      toHex tag24) password opts).1 = .ok (utf8Decode pt24) ∧
    (decryptText P (toHex salt ++ ":" ++ toHex iv ++ ":" ++ toHex ct16 ++ ":" ++
      toHex tag16) password opts).1 = .ok (utf8Decode pt16) := by
  have hval : validateCipherParams "AES-GCM"
      ((keyOrderOf opts.keyLength).headD 0) iv.length = .ok () := by
    rw [hhint, hiv]
    rfl
  refine ⟨rfl, fun h => rfl, ?_, ?_⟩
  · have hparse := decryptText_parsed_gcm P password opts hs hi hc24 ht24 hpw hval
    rw [congrArg Prod.fst hparse, hhint]
    rw [show keyOrderOf none = ((32 : Int) :: [24, 16]) from rfl]
    rw [decryptCandidates_fst_fail [24, 16] _ hf24]
    refine decryptCandidates_fst_gcm_ok [16] _ rfl ?_ hd24 hg24
    show validateCipherParams "AES-GCM" 24 iv.length = Except.ok ()
    rw [hiv]
    rfl
  · have hparse := decryptText_parsed_gcm P password opts hs hi hc16 ht16 hpw hval
    rw [congrArg Prod.fst hparse, hhint]
    rw [show keyOrderOf none = ((32 : Int) :: [24, 16]) from rfl]
    rw [decryptCandidates_fst_fail [24, 16] _ hf16a]
    rw [decryptCandidates_fst_fail [16] _ hf16b]
    refine decryptCandidates_fst_gcm_ok [] _ rfl ?_ hd16 hg16
    show validateCipherParams "AES-GCM" 16 iv.length = Except.ok ()
    rw [hiv]
    rfl

/-- Witness for C4: under the concrete provider, a hint-free 4-field envelope
whose key was derived with length 24 decrypts (candidate 32 fails first), and
one whose key was derived with length 16 decrypts after candidates 32 and 24
both fail. -/
theorem decryptText_key_autodiscovery_witness :
    keyOrderOf none = [32, 24, 16] ∧
    (∀ h : Int, keyOrderOf (some h) =
      h :: ([32, 24, 16].filter fun k => k ≠ h)) ∧
    (decryptText toyP (toHex c4salt ++ ":" ++ toHex c4iv ++ ":" ++
      toHex c4ct24 ++ ":" ++ toHex c4tag24) "pw" {}).1 =
      .ok (utf8Decode [10, 20, 30]) ∧
    (decryptText toyP (toHex c4salt ++ ":" ++ toHex c4iv ++ ":" ++
      toHex c4ct16 ++ ":" ++ toHex c4tag16) "pw" {}).1 =
      .ok (utf8Decode [10, 20, 30]) :=
  decryptText_key_autodiscovery toyP c4salt c4iv c4ct24 c4tag24 c4key24
    [10, 20, 30] c4ct16 c4tag16 c4key16 [10, 20, 30] "pw" {} rfl
    (by decide) (by decide) (by decide) (by decide) (by decide) (by decide)
    (by decide) (by decide) (by decide) rfl (by decide) (by decide) (by decide)
    rfl (by decide)

/-- C5 counterexample: no provider, key, IV and ciphertext make the CBC
catch-block fallback succeed: the fallback re-runs the identical rejected
decrypt, so its hypotheses are contradictory. -/
theorem cbcFallbackSucceeds_never :
    (∃ P key iv ct, cbcFallbackSucceeds P key iv ct) ↔ False := by
  constructor
  · rintro ⟨P, key, iv, ct, h1, padded, h2, -⟩
    rw [h1] at h2
    exact Option.noConfusion h2
  · intro h
    exact h.elim

/-- C5 (amended): for a 3-field envelope the AES-CBC branch of the candidate
loop returns the raw WebCrypto-decrypted bytes as the final plaintext
whenever the decrypt is accepted — the first candidate's raw success makes
`decryptText` return exactly those bytes decoded, with no further PKCS#7
unpadding applied by the caller — and the catch-block fallback of the source
is dead code: it re-runs the byte-identical rejected decrypt, so no inputs
satisfy `cbcFallbackSucceeds`; a rejected decrypt advances to the next
candidate. -/
theorem decryptText_cbc_raw_first (P : SubtleCrypto)
    (salt iv ct key buf : Bytes) (password : String) (opts : DecOpts)
    (hs : ∀ b ∈ salt, b < 256) (hi : ∀ b ∈ iv, b < 256)
    (hc : ∀ b ∈ ct, b < 256) (hpw : jsTrim password ≠ "")
    (hval : validateCipherParams "AES-CBC"
      ((keyOrderOf opts.keyLength).headD 0) iv.length = .ok ())
    (hd : (deriveKeyPBKDF2 P password salt
      (match opts.iterations with | some i => i | none => DEFAULTS.iterations)
      ((keyOrderOf opts.keyLength).headD 0)).1 = .ok key)
    (hraw : subtleCbcDecrypt P key iv ct = some buf) :
    (decryptText P (toHex salt ++ ":" ++ toHex iv ++ ":" ++ toHex ct)
      password opts).1 = .ok (utf8Decode buf) ∧
    ∀ Q k i c, ¬ cbcFallbackSucceeds Q k i c := by
  constructor
  · have hparse := decryptText_parsed_cbc P password opts hs hi hc hpw hval
    rw [congrArg Prod.fst hparse]
    rw [keyOrderOf_eq_cons opts.keyLength]
    exact decryptCandidates_fst_cbc_raw_ok _ _ rfl hval hd hraw
  · rintro Q k i c ⟨h1, padded, h2, -⟩
    rw [h1] at h2
    exact Option.noConfusion h2

/-- Witness for C5: an externally produced single-padded CBC envelope under
the concrete provider decrypts through the raw path to the producer's
plaintext bytes on the first candidate. -/
theorem decryptText_cbc_raw_first_witness :
    (decryptText toyP (toHex c5salt ++ ":" ++ toHex c5iv ++ ":" ++ toHex c5ct)
      "pw" {}).1 = .ok (utf8Decode [1, 2, 3]) ∧
    ∀ Q k i c, ¬ cbcFallbackSucceeds Q k i c :=
  decryptText_cbc_raw_first toyP c5salt c5iv c5ct c5key [1, 2, 3] "pw" {}
    (by decide) (by decide) (by decide) (by decide) rfl rfl (by decide)

/-- C1: the AES-CBC round trip does NOT return the original plaintext.  For
a provider whose raw block transforms are mutually inverse, encrypting a
plaintext with AES-CBC and decrypting the envelope with the same password,
iterations and key length succeeds but returns the UTF-8 decoding of the
PKCS#7-padded plaintext bytes — the plaintext followed by padLen bytes of
value padLen — which is never the plaintext itself: `encryptText` pads
manually and the WebCrypto AES-CBC encrypt pads again, while decryption
strips only one layer and the raw-bytes-first path decodes the still-padded
buffer. -/
theorem cbc_roundtrip_returns_padded_plaintext (P : SubtleCrypto)
    (hP : LawfulProvider P)
    (hrt : ∀ key iv d, (∀ b ∈ d, b < 256) →
      P.cbcRawDec key iv (P.cbcRawEnc key iv d) = d)
    (plaintext password : String) (opts : EncOpts) (dopts : DecOpts)
    (halg : jsOrStr opts.algorithm DEFAULTS.algorithm = "AES-CBC")
    (hval : validateCipherParams "AES-CBC"
      (jsOrInt opts.keyLength DEFAULTS.keyLength)
      (jsOrNat opts.ivLength DEFAULTS.ivLength) = .ok ())
    (hpt : jsTrim plaintext ≠ "") (hpw : jsTrim password ≠ "")
    (hsl : jsOrNat opts.saltLength DEFAULTS.saltLength ≠ 0)
    (hil : jsOrNat opts.ivLength DEFAULTS.ivLength ≠ 0)
    (hit : 0 < jsOrInt opts.iterations DEFAULTS.iterations)
    (hdkl : dopts.keyLength = some (jsOrInt opts.keyLength DEFAULTS.keyLength))
    (hdit : (match dopts.iterations with
      | some i => i
      | none => DEFAULTS.iterations) =
      jsOrInt opts.iterations DEFAULTS.iterations) :
    ∃ env, (encryptText P plaintext password opts).1 = .ok env ∧
      (decryptText P env password dopts).1 =
        .ok (utf8Decode (pkcs7Pad (utf8Encode plaintext) 16)) ∧
      utf8Decode (pkcs7Pad (utf8Encode plaintext) 16) ≠ plaintext := by
  refine ⟨_, encryptText_cbc_fst P plaintext password opts halg hval hpt hpw
    hsl hil hit, ?_, ?_⟩
  · have hs : ∀ b ∈ P.getRandomValues
        (jsOrNat opts.saltLength DEFAULTS.saltLength), b < 256 := hP.rand_lt _
    have hi2 : ∀ b ∈ P.getRandomValues
        (jsOrNat opts.ivLength DEFAULTS.ivLength), b < 256 := hP.rand_lt _
    have hc : ∀ b ∈ subtleCbcEncrypt P
        (P.pbkdf2 password
          (P.getRandomValues (jsOrNat opts.saltLength DEFAULTS.saltLength))
          (jsOrInt opts.iterations DEFAULTS.iterations).toNat
          (jsOrInt opts.keyLength DEFAULTS.keyLength).toNat)
        (P.getRandomValues (jsOrNat opts.ivLength DEFAULTS.ivLength))
        (pkcs7Pad (utf8Encode plaintext) 16), b < 256 :=
      fun b hb => hP.cbc_lt _ _ _ b hb
    have hivlen : (P.getRandomValues
        (jsOrNat opts.ivLength DEFAULTS.ivLength)).length =
        jsOrNat opts.ivLength DEFAULTS.ivLength := hP.rand_length _
    have hval2 : validateCipherParams "AES-CBC"
        ((keyOrderOf dopts.keyLength).headD 0)
        (P.getRandomValues (jsOrNat opts.ivLength DEFAULTS.ivLength)).length =
        .ok () := by
      rw [hdkl, hivlen]
      exact hval
    have hparse := decryptText_parsed_cbc P password dopts hs hi2 hc hpw hval2
    rw [congrArg Prod.fst hparse, hdkl]
    rw [show keyOrderOf (some (jsOrInt opts.keyLength DEFAULTS.keyLength)) =
      (jsOrInt opts.keyLength DEFAULTS.keyLength) ::
        ([32, 24, 16].filter fun k =>
          k ≠ jsOrInt opts.keyLength DEFAULTS.keyLength) from rfl]
    have hkl := validateCipherParams_ok_keyLength hval
    have hd : (deriveKeyPBKDF2 P password
        (P.getRandomValues (jsOrNat opts.saltLength DEFAULTS.saltLength))
        (match dopts.iterations with
          | some i => i
          | none => DEFAULTS.iterations)
        (jsOrInt opts.keyLength DEFAULTS.keyLength)).1 =
        .ok (P.pbkdf2 password
          (P.getRandomValues (jsOrNat opts.saltLength DEFAULTS.saltLength))
          (jsOrInt opts.iterations DEFAULTS.iterations).toNat
          (jsOrInt opts.keyLength DEFAULTS.keyLength).toNat) := by
      rw [hdit, deriveKeyPBKDF2_fst_ok hpw hit hkl]
    have hv2 : validateCipherParams "AES-CBC"
        (jsOrInt opts.keyLength DEFAULTS.keyLength)
        (P.getRandomValues (jsOrNat opts.ivLength DEFAULTS.ivLength)).length =
        .ok () := by
      rw [hivlen]
      exact hval
    exact decryptCandidates_fst_cbc_raw_ok _ _ rfl hv2 hd
      (subtleCbcDecrypt_subtleCbcEncrypt hP hrt _ _
        (pkcs7Pad_lt (utf8Encode_lt plaintext)))
  · intro heq
    have hchars : utf8DecodeChars (pkcs7Pad (utf8Encode plaintext) 16) =
        plaintext.data ++
          List.replicate (16 - (utf8Encode plaintext).length % 16)
            (Char.ofNat (16 - (utf8Encode plaintext).length % 16)) := by
      rw [pkcs7Pad_eq]
      have h2 := utf8DecodeChars_encode_append plaintext.data
        (List.replicate (16 - (utf8Encode plaintext).length % 16)
          (16 - (utf8Encode plaintext).length % 16))
      rw [show ((plaintext.data.map utf8EncodeChar).flatten : Bytes) =
        utf8Encode plaintext from rfl] at h2
      rw [h2, utf8DecodeChars_replicate (by
        have h3 := padLen_bounds (utf8Encode plaintext)
        omega)]
    have hdata := congrArg String.data heq
    rw [show (utf8Decode (pkcs7Pad (utf8Encode plaintext) 16)).data =
      utf8DecodeChars (pkcs7Pad (utf8Encode plaintext) 16) from rfl] at hdata
    rw [hchars] at hdata
    have hlen := congrArg List.length hdata
    simp only [List.length_append, List.length_replicate] at hlen
    have hm := padLen_bounds (utf8Encode plaintext)
    omega

/-- Witness for C1: the spec's concrete CBC scenario under the concrete
provider: encrypting "hello world" and decrypting the envelope with the same
password, iterations and key length returns the padded plaintext, not
"hello world". -/
theorem cbc_roundtrip_returns_padded_plaintext_witness :
    ∃ env,
      (encryptText toyP "hello world" "correct horse battery staple"
        cbcScenarioOpts).1 = .ok env ∧
      (decryptText toyP env "correct horse battery staple"
        {iterations := some 100000, keyLength := some 32}).1 =
        .ok (utf8Decode (pkcs7Pad (utf8Encode "hello world") 16)) ∧
      utf8Decode (pkcs7Pad (utf8Encode "hello world") 16) ≠ "hello world" :=
  cbc_roundtrip_returns_padded_plaintext toyP toyP_lawful
    (fun k i d hd => streamDec_streamEnc _ hd) "hello world"
    "correct horse battery staple" cbcScenarioOpts
    {iterations := some 100000, keyLength := some 32}
    rfl rfl (by decide) (by decide) (by decide) (by decide) (by decide)
    rfl rfl

/-- C9 counterexample: a successful default encryption under the concrete
provider leaves the salt buffer non-zero in the final log: `encryptText`
never zero-fills the salt. -/
theorem encryptText_salt_left_unwiped :
    ((encryptText toyP "hello world" "pw" {}).2.any
      fun e => e.1 == "salt" && e.2.any (· != 0)) = true := rfl

/-- C9 (amended): not every intermediate buffer is wiped, but most are.  On
every exit of `encryptText` the only log entries that may be non-zero are
the salt and the IV — plaintext bytes, padded block, key material, combined
GCM output, ciphertext and tag views all end zero-filled — and on every exit
of `decryptText` the only entries that may be non-zero are the parsed salt,
IV, ciphertext and tag fields and the per-candidate joined
ciphertext-plus-tag buffers of the AES-GCM loop. -/
theorem encrypt_decrypt_buffer_hygiene (P : SubtleCrypto)
    (plaintext password encString password2 : String)
    (opts : EncOpts) (dopts : DecOpts) :
    (∀ e ∈ (encryptText P plaintext password opts).2,
      e.1 = "salt" ∨ e.1 = "iv" ∨ e.2.all (· = 0) = true) ∧
    (∀ e ∈ (decryptText P encString password2 dopts).2, decryptResidue e) := by
  constructor
  · intro e he
    simp only [encryptText] at he
    cases hv : validateCipherParams (jsOrStr opts.algorithm DEFAULTS.algorithm)
        (jsOrInt opts.keyLength DEFAULTS.keyLength)
        (jsOrNat opts.ivLength DEFAULTS.ivLength) with
    | error e1 =>
      simp [hv] at he
    | ok u =>
      simp only [hv] at he
      by_cases hpt : jsTrim plaintext = ""
      · rw [if_pos hpt] at he
        simp at he
      · rw [if_neg hpt] at he
        by_cases hpw : jsTrim password = ""
        · rw [if_pos hpw] at he
          simp at he
        · rw [if_neg hpw] at he
          cases hr1 : randomBytes P (jsOrNat opts.saltLength DEFAULTS.saltLength)
              with
          | error e1 =>
            simp [hr1] at he
          | ok salt =>
            simp only [hr1] at he
            cases hr2 : randomBytes P (jsOrNat opts.ivLength DEFAULTS.ivLength)
                with
            | error e2 =>
              simp only [hr2, List.mem_cons, List.not_mem_nil, or_false] at he
              subst he
              exact Or.inl rfl
            | ok iv =>
              simp only [hr2] at he
              rcases hdk : deriveKeyPBKDF2 P password salt
                  (jsOrInt opts.iterations DEFAULTS.iterations)
                  (jsOrInt opts.keyLength DEFAULTS.keyLength) with ⟨res, klog⟩
              have hklog : ∀ x ∈ klog,
                  x.1 = "keyMaterial" ∧ x.2.all (· = 0) = true := by
                intro x hx
                exact deriveKeyPBKDF2_log_entries P password salt
                  (jsOrInt opts.iterations DEFAULTS.iterations)
                  (jsOrInt opts.keyLength DEFAULTS.keyLength) x
                  (by rw [hdk]; exact hx)
              cases res with
              | error e3 =>
                simp only [hdk] at he
                rcases List.mem_append.mp he with h | h
                · simp only [List.mem_cons, List.not_mem_nil, or_false] at h
                  rcases h with rfl | rfl
                  · exact Or.inl rfl
                  · exact Or.inr (Or.inl rfl)
                · exact Or.inr (Or.inr (hklog e h).2)
              | ok key =>
                simp only [hdk] at he
                by_cases halg : jsOrStr opts.algorithm DEFAULTS.algorithm =
                    "AES-GCM"
                · rw [if_pos halg] at he
                  by_cases hshort : (subtleGcmEncrypt P key iv
                      (utf8Encode plaintext)).length < 16
                  · rw [if_pos hshort] at he
                    rcases wipeBuf_entries he with ⟨-, hz⟩ | ⟨hne1, h1⟩
                    · exact Or.inr (Or.inr hz)
                    · rcases wipeBuf_entries h1 with ⟨-, hz⟩ | ⟨hne2, h2⟩
                      · exact Or.inr (Or.inr hz)
                      · rcases List.mem_append.mp h2 with h3 | h3
                        · rcases List.mem_append.mp h3 with h4 | h4
                          · simp only [List.mem_cons, List.not_mem_nil,
                              or_false] at h4
                            rcases h4 with rfl | rfl
                            · exact Or.inl rfl
                            · exact Or.inr (Or.inl rfl)
                          · exact Or.inr (Or.inr (hklog e h4).2)
                        · simp only [List.mem_cons, List.not_mem_nil,
                            or_false] at h3
                          rcases h3 with rfl | rfl
                          · exact absurd rfl hne2
                          · exact absurd rfl hne1
                  · rw [if_neg hshort] at he
                    rcases wipeAll_entries_strong he with ⟨-, hz⟩ | ⟨hnin, h1⟩
                    · exact Or.inr (Or.inr hz)
                    · rcases List.mem_append.mp h1 with h2 | h2
                      · rcases wipeBuf_entries h2 with ⟨-, hz⟩ | ⟨hne2, h3⟩
                        · exact Or.inr (Or.inr hz)
                        · rcases List.mem_append.mp h3 with h4 | h4
                          · rcases List.mem_append.mp h4 with h5 | h5
                            · simp only [List.mem_cons, List.not_mem_nil,
                                or_false] at h5
                              rcases h5 with rfl | rfl
                              · exact Or.inl rfl
                              · exact Or.inr (Or.inl rfl)
                            · exact Or.inr (Or.inr (hklog e h5).2)
                          · simp only [List.mem_cons, List.not_mem_nil,
                              or_false] at h4
                            rcases h4 with rfl | rfl
                            · exact absurd rfl hne2
                            · exact absurd (by simp) hnin
                      · simp only [List.mem_cons, List.not_mem_nil,
                          or_false] at h2
                        rcases h2 with rfl | rfl
                        · exact absurd (by simp) hnin
                        · exact absurd (by simp) hnin
                · rw [if_neg halg] at he
                  rcases wipeBuf_entries he with ⟨-, hz⟩ | ⟨hne1, h1⟩
                  · exact Or.inr (Or.inr hz)
                  · rcases wipeBuf_entries h1 with ⟨-, hz⟩ | ⟨hne2, h2⟩
                    · exact Or.inr (Or.inr hz)
                    · rcases List.mem_append.mp h2 with h3 | h3
                      · rcases wipeBuf_entries h3 with ⟨-, hz⟩ | ⟨hne3, h4⟩
                        · exact Or.inr (Or.inr hz)
                        · rcases List.mem_append.mp h4 with h5 | h5
                          · rcases List.mem_append.mp h5 with h6 | h6
                            · simp only [List.mem_cons, List.not_mem_nil,
                                or_false] at h6
                              rcases h6 with rfl | rfl
                              · exact Or.inl rfl
                              · exact Or.inr (Or.inl rfl)
                            · exact Or.inr (Or.inr (hklog e h6).2)
                          · simp only [List.mem_cons, List.not_mem_nil,
                              or_false] at h5
                            rcases h5 with rfl | rfl
                            · exact absurd rfl hne3
                            · exact absurd rfl hne2
                      · simp only [List.mem_cons, List.not_mem_nil,
                          or_false] at h3
                        rcases h3 with rfl
                        exact absurd rfl hne1
  · intro e he
    simp only [decryptText] at he
    by_cases h1 : jsTrim encString = ""
    · rw [if_pos h1] at he
      simp at he
    · rw [if_neg h1] at he
      by_cases h2 : jsTrim password2 = ""
      · rw [if_pos h2] at he
        simp at he
      · rw [if_neg h2] at he
        by_cases h3 : (splitColon encString).length ≠ 3 ∧
            (splitColon encString).length ≠ 4
        · rw [if_pos h3] at he
          simp at he
        · rw [if_neg h3] at he
          cases hsalt : fromHex (((splitColon encString).map jsTrim).getD 0 "")
              with
          | error e1 =>
            simp only [hsalt] at he
            simp at he
          | ok salt =>
            simp only [hsalt] at he
            cases hiv : fromHex (((splitColon encString).map jsTrim).getD 1 "")
                with
            | error e2 =>
              simp only [hiv, List.mem_cons, List.not_mem_nil, or_false] at he
              subst he
              exact Or.inl rfl
            | ok iv =>
              simp only [hiv] at he
              cases hvp : validateCipherParams
                  (if (splitColon encString).length = 4 then "AES-GCM"
                    else "AES-CBC")
                  ((keyOrderOf dopts.keyLength).headD 0) iv.length with
              | error e3 =>
                simp only [hvp, List.mem_cons, List.not_mem_nil, or_false] at he
                rcases he with rfl | rfl
                · exact Or.inl rfl
                · exact Or.inr (Or.inl rfl)
              | ok u =>
                simp only [hvp] at he
                cases hct : fromHex
                    (((splitColon encString).map jsTrim).getD 2 "") with
                | error e4 =>
                  simp only [hct, List.mem_cons, List.not_mem_nil,
                    or_false] at he
                  rcases he with rfl | rfl
                  · exact Or.inl rfl
                  · exact Or.inr (Or.inl rfl)
                | ok ciphertext =>
                  simp only [hct] at he
                  cases htg : (if (if (splitColon encString).length = 4 then
                          "AES-GCM" else "AES-CBC") = "AES-GCM" then
                        (fromHex
                          (((splitColon encString).map jsTrim).getD 3 "")).map
                          some
                      else .ok none : Except String (Option Bytes)) with
                  | error e5 =>
                    simp only [htg] at he
                    rcases List.mem_append.mp he with h4 | h4
                    · simp only [List.mem_cons, List.not_mem_nil,
                        or_false] at h4
                      rcases h4 with rfl | rfl
                      · exact Or.inl rfl
                      · exact Or.inr (Or.inl rfl)
                    · simp only [List.mem_cons, List.not_mem_nil,
                        or_false] at h4
                      subst h4
                      exact Or.inr (Or.inr (Or.inl rfl))
                  | ok tagOpt =>
                    simp only [htg] at he
                    refine decryptCandidates_log_entries _ _ _ ?_ e he
                    intro x hx
                    rcases List.mem_append.mp hx with hx1 | hx1
                    · rcases List.mem_append.mp hx1 with hx2 | hx2
                      · simp only [List.mem_cons, List.not_mem_nil,
                          or_false] at hx2
                        rcases hx2 with rfl | rfl
                        · exact Or.inl rfl
                        · exact Or.inr (Or.inl rfl)
                      · simp only [List.mem_cons, List.not_mem_nil,
                          or_false] at hx2
                        subst hx2
                        exact Or.inr (Or.inr (Or.inl rfl))
                    · cases tagOpt with
                      | none => simp at hx1
                      | some t =>
                        simp only [List.mem_cons, List.not_mem_nil,
                          or_false] at hx1
                        subst hx1
                        exact Or.inr (Or.inr (Or.inr (Or.inl rfl)))

end Crcrypt
